import Mathlib

/-!
# Verification of the mmispoc ordering backend

A shallow embedding, in Lean 4, of the authentication-token subsystem, the
tenant-ownership authorization model and the order-creation workflow of the
`mmispoc` Go repository, together with proofs of the specification's claims.

Byte strings are modelled as `List Nat` (each element one byte). Machine
integers (`int64`, `uint32`) are modelled as `Int`/`Nat` with explicit
reduction `% 2^w` wherever the Go code relies on fixed-width wrap-around.
Database collaborators (user store, restaurant/ingredient existence, order
table) are modelled as explicit function parameters / threaded state.
-/

/-- Byte strings: each element is one byte of the Go `[]byte`/`string`. -/
abbrev Bytes := List Nat

/-- Reduction to a 32-bit word, `x % 2^32`. -/
def w32 (x : Nat) : Nat := x % 4294967296

/-- The 32-bit right rotation (`bits.RotateLeft32` inverse direction as used by SHA-256). -/
def rotr (n x : Nat) : Nat := w32 ((x >>> n) ||| (x <<< (32 - n)))

/-- Bitwise complement within 32 bits. -/
def notw (x : Nat) : Nat := 4294967295 ^^^ x

/-- SHA-256 round constants (FIPS 180-4), most significant word first. -/
def sha256K : List Nat :=
  [1116352408, 1899447441, 3049323471, 3921009573, 961987163, 1508970993,
   2453635748, 2870763221, 3624381080, 310598401, 607225278, 1426881987,
   1925078388, 2162078206, 2614888103, 3248222580, 3835390401, 4022224774,
   264347078, 604807628, 770255983, 1249150122, 1555081692, 1996064986,
   2554220882, 2821834349, 2952996808, 3210313671, 3336571891, 3584528711,
   113926993, 338241895, 666307205, 773529912, 1294757372, 1396182291,
   1695183700, 1986661051, 2177026350, 2456956037, 2730485921, 2820302411,
   3259730800, 3345764771, 3516065817, 3600352804, 4094571909, 275423344,
   430227734, 506948616, 659060556, 883997877, 958139571, 1322822218,
   1537002063, 1747873779, 1955562222, 2024104815, 2227730452, 2361852424,
   2428436474, 2756734187, 3204031479, 3329325298]

/-- The eight working variables of the SHA-256 compression function. -/
structure H8 where
  a : Nat
  b : Nat
  c : Nat
  d : Nat
  e : Nat
  f : Nat
  g : Nat
  h : Nat
deriving DecidableEq, Repr

/-- SHA-256 initial hash value (FIPS 180-4). -/
def shaInit : H8 :=
  ⟨1779033703, 3144134277, 1013904242, 2773480762,
   1359893119, 2600822924, 528734635, 1541459225⟩

/-- Big-endian eight-byte encoding of a number (the length field of SHA-256 padding). -/
def be64 (n : Nat) : Bytes :=
  [(n >>> 56) % 256, (n >>> 48) % 256, (n >>> 40) % 256, (n >>> 32) % 256,
   (n >>> 24) % 256, (n >>> 16) % 256, (n >>> 8) % 256, n % 256]

/-- SHA-256 message padding: a `0x80` byte, zeros to 56 mod 64, then the
bit length as a big-endian 64-bit integer. -/
def shaPad (msg : Bytes) : Bytes :=
  let len := msg.length
  let zeros := (64 + 56 - (len + 1) % 64) % 64
  msg ++ 128 :: List.replicate zeros 0 ++ be64 (len * 8)

/-- Split a byte string into 64-byte blocks (structural recursion on a
fuel bound so that the kernel can evaluate it; the fuel `l.length`
dominates the number of 64-byte steps). -/
def chunks64F : Nat → Bytes → List Bytes
  | _, [] => []
  | 0, l => [l]
  | fuel + 1, x :: rest => ((x :: rest).take 64) :: chunks64F fuel ((x :: rest).drop 64)

def chunks64 (l : Bytes) : List Bytes := chunks64F l.length l

/-- Big-endian 32-bit words of a block (four bytes per word). -/
def words16 : Bytes → List Nat
  | b0 :: b1 :: b2 :: b3 :: rest =>
      (b0 * 16777216 + b1 * 65536 + b2 * 256 + b3) :: words16 rest
  | _ => []

/-- The σ₀ message-schedule function of SHA-256. -/
def ssig0 (x : Nat) : Nat := (rotr 7 x) ^^^ (rotr 18 x) ^^^ (x >>> 3)

/-- The σ₁ message-schedule function of SHA-256. -/
def ssig1 (x : Nat) : Nat := (rotr 17 x) ^^^ (rotr 19 x) ^^^ (x >>> 10)

/-- The Σ₀ compression function of SHA-256. -/
def bsig0 (x : Nat) : Nat := (rotr 2 x) ^^^ (rotr 13 x) ^^^ (rotr 22 x)

/-- The Σ₁ compression function of SHA-256. -/
def bsig1 (x : Nat) : Nat := (rotr 6 x) ^^^ (rotr 11 x) ^^^ (rotr 25 x)

/-- Extend the 16-word message schedule by `n` further words. -/
def extendW (w : List Nat) : Nat → List Nat
  | 0 => w
  | n + 1 =>
      let len := w.length
      let nw := w32 (ssig1 (w.getD (len - 2) 0) + w.getD (len - 7) 0 +
                     ssig0 (w.getD (len - 15) 0) + w.getD (len - 16) 0)
      extendW (w ++ [nw]) n

/-- One SHA-256 round, consuming a pair of round constant and schedule word. -/
def shaRound (s : H8) (kw : Nat × Nat) : H8 :=
  let ch := (s.e &&& s.f) ^^^ (notw s.e &&& s.g)
  let maj := (s.a &&& s.b) ^^^ (s.a &&& s.c) ^^^ (s.b &&& s.c)
  let t1 := w32 (s.h + bsig1 s.e + ch + kw.1 + kw.2)
  let t2 := w32 (bsig0 s.a + maj)
  ⟨w32 (t1 + t2), s.a, s.b, s.c, w32 (s.d + t1), s.e, s.f, s.g⟩

/-- SHA-256 compression of one 64-byte block into the running hash state. -/
def shaBlock (s : H8) (block : Bytes) : H8 :=
  let ws := extendW (words16 block) 48
  let t := (sha256K.zip ws).foldl shaRound s
  ⟨w32 (s.a + t.a), w32 (s.b + t.b), w32 (s.c + t.c), w32 (s.d + t.d),
   w32 (s.e + t.e), w32 (s.f + t.f), w32 (s.g + t.g), w32 (s.h + t.h)⟩

/-- Big-endian bytes of a 32-bit word. -/
def wordBytes (w : Nat) : Bytes :=
  [(w >>> 24) % 256, (w >>> 16) % 256, (w >>> 8) % 256, w % 256]

/-- The 32 digest bytes of a final hash state. -/
def digestOf (s : H8) : Bytes :=
  wordBytes s.a ++ wordBytes s.b ++ wordBytes s.c ++ wordBytes s.d ++
  wordBytes s.e ++ wordBytes s.f ++ wordBytes s.g ++ wordBytes s.h

/-- SHA-256 of a byte string (`crypto/sha256`). -/
def sha256 (msg : Bytes) : Bytes :=
  digestOf ((chunks64 (shaPad msg)).foldl shaBlock shaInit)

/-- HMAC-SHA256 (`crypto/hmac` with `sha256.New`): keys longer than the
64-byte block size are hashed first, the key is zero-padded to 64 bytes,
and the digest is `H((k ⊕ opad) ‖ H((k ⊕ ipad) ‖ msg))`. -/
def hmacSha256 (key msg : Bytes) : Bytes :=
  let k0 := if 64 < key.length then sha256 key else key
  let kp := k0 ++ List.replicate (64 - k0.length) 0
  let ipad := kp.map (fun b => b ^^^ 54)
  let opad := kp.map (fun b => b ^^^ 92)
  sha256 (opad ++ sha256 (ipad ++ msg))

theorem sha256_length (msg : Bytes) : (sha256 msg).length = 32 := by
  simp [sha256, digestOf, wordBytes]

theorem wordBytes_lt (w : Nat) : ∀ b ∈ wordBytes w, b < 256 := by
  intro b hb
  simp only [wordBytes, List.mem_cons, List.not_mem_nil, or_false] at hb
  rcases hb with h | h | h | h <;> subst h <;> exact Nat.mod_lt _ (by omega)

theorem sha256_bytes_lt (msg : Bytes) : ∀ b ∈ sha256 msg, b < 256 := by
  intro b hb
  simp only [sha256, digestOf, List.mem_append] at hb
  rcases hb with (((((((h | h) | h) | h) | h) | h) | h) | h) <;>
    exact wordBytes_lt _ _ h

/-! ## base64url (Go `encoding/base64.RawURLEncoding`)

The URL-safe alphabet, no padding characters. Decoding models Go's
default (non-`Strict`) mode: `\r` and `\n` bytes are skipped, an input
whose length is 1 mod 4 is rejected, and the unused trailing padding
bits of the final character are discarded without being checked. -/

/-- ASCII byte of a 6-bit value in the base64url alphabet. -/
def b64char (v : Nat) : Nat :=
  if v < 26 then 65 + v
  else if v < 52 then 97 + (v - 26)
  else if v < 62 then 48 + (v - 52)
  else if v = 62 then 45
  else 95

/-- The 6-bit value of an ASCII byte, `none` when outside the base64url alphabet. -/
def b64val (c : Nat) : Option Nat :=
  if 65 ≤ c ∧ c ≤ 90 then some (c - 65)
  else if 97 ≤ c ∧ c ≤ 122 then some (c - 97 + 26)
  else if 48 ≤ c ∧ c ≤ 57 then some (c - 48 + 52)
  else if c = 45 then some 62
  else if c = 95 then some 63
  else none

/-- base64url encoding without padding (`RawURLEncoding.EncodeToString`). -/
def b64encode : Bytes → Bytes
  | [] => []
  | [a] => [b64char ((a / 4) % 64), b64char ((a % 4) * 16)]
  | [a, b] => [b64char ((a / 4) % 64), b64char (((a % 4) * 16 + b / 16) % 64),
               b64char ((b % 16) * 4)]
  | a :: b :: c :: rest =>
      b64char ((a / 4) % 64) :: b64char (((a % 4) * 16 + b / 16) % 64) ::
      b64char (((b % 16) * 4 + c / 64) % 64) :: b64char (c % 64) ::
      b64encode rest

/-- Regroup decoded 6-bit values into bytes, four values to three bytes.
A single leftover value is an error; in the two- and three-value leftover
cases the unused low padding bits of the final value are discarded, which
is Go's non-strict behaviour. -/
def b64regroup : List Nat → Option Bytes
  | [] => some []
  | [_] => none
  | [v1, v2] => some [(v1 * 4 + v2 / 16) % 256]
  | [v1, v2, v3] => some [(v1 * 4 + v2 / 16) % 256, ((v2 % 16) * 16 + v3 / 4) % 256]
  | v1 :: v2 :: v3 :: v4 :: rest =>
      match b64regroup rest with
      | none => none
      | some bytes =>
          some ((v1 * 4 + v2 / 16) % 256 :: ((v2 % 16) * 16 + v3 / 4) % 256 ::
                ((v3 % 4) * 64 + v4) % 256 :: bytes)

/-- Map every byte to its alphabet value; `none` on the first invalid byte. -/
def b64vals : Bytes → Option (List Nat)
  | [] => some []
  | c :: rest =>
      match b64val c, b64vals rest with
      | some v, some vs => some (v :: vs)
      | _, _ => none

/-- base64url decoding (`RawURLEncoding.DecodeString`, non-strict). -/
def b64decode (s : Bytes) : Option Bytes :=
  match b64vals (s.filter (fun c => !(c == 10 || c == 13))) with
  | none => none
  | some vs => b64regroup vs

theorem b64val_b64char : ∀ v < 64, b64val (b64char v) = some v := by decide

theorem b64char_ne_dot : ∀ v < 64, b64char v ≠ 46 := by decide

theorem b64char_ne_nl : ∀ v < 64, b64char v ≠ 10 ∧ b64char v ≠ 13 := by decide

theorem b64char_lt : ∀ v < 64, b64char v < 256 := by decide

/-- Every byte emitted by the encoder is an alphabet byte. -/
theorem mem_b64encode : ∀ (l : Bytes) (c : Nat), c ∈ b64encode l → ∃ v, v < 64 ∧ c = b64char v
  | [], c, h => absurd h (by simp [b64encode])
  | [a], c, h => by
      simp only [b64encode, List.mem_cons, List.not_mem_nil, or_false] at h
      rcases h with h | h
      · exact ⟨(a / 4) % 64, Nat.mod_lt _ (by omega), h⟩
      · exact ⟨(a % 4) * 16, by omega, h⟩
  | [a, b], c, h => by
      simp only [b64encode, List.mem_cons, List.not_mem_nil, or_false] at h
      rcases h with h | h | h
      · exact ⟨(a / 4) % 64, Nat.mod_lt _ (by omega), h⟩
      · exact ⟨((a % 4) * 16 + b / 16) % 64, Nat.mod_lt _ (by omega), h⟩
      · exact ⟨(b % 16) * 4, by omega, h⟩
  | a :: b :: cc :: rest, c, h => by
      simp only [b64encode, List.mem_cons] at h
      rcases h with h | h | h | h | h
      · exact ⟨(a / 4) % 64, Nat.mod_lt _ (by omega), h⟩
      · exact ⟨((a % 4) * 16 + b / 16) % 64, Nat.mod_lt _ (by omega), h⟩
      · exact ⟨((b % 16) * 4 + cc / 64) % 64, Nat.mod_lt _ (by omega), h⟩
      · exact ⟨cc % 64, Nat.mod_lt _ (by omega), h⟩
      · exact mem_b64encode rest c h

/-- The decoder's value map succeeds on the encoder's output and recovers
the 6-bit values, and regrouping then recovers the original bytes. -/
theorem b64_core_roundtrip : ∀ (l : Bytes), (∀ b ∈ l, b < 256) →
    ∃ vs, b64vals (b64encode l) = some vs ∧ b64regroup vs = some l
  | [], _ => ⟨[], by simp [b64encode, b64vals, b64regroup]⟩
  | [a], h => by
      have ha : a < 256 := h a (by simp)
      refine ⟨[(a / 4) % 64, (a % 4) * 16], ?_, ?_⟩
      · simp [b64encode, b64vals, b64val_b64char _ (Nat.mod_lt _ (by omega)),
          b64val_b64char ((a % 4) * 16) (by omega)]
      · simp only [b64regroup, Option.some.injEq, List.cons.injEq, and_true]
        omega
  | [a, b], h => by
      have ha : a < 256 := h a (by simp)
      have hb : b < 256 := h b (by simp)
      refine ⟨[(a / 4) % 64, ((a % 4) * 16 + b / 16) % 64, (b % 16) * 4], ?_, ?_⟩
      · simp [b64encode, b64vals, b64val_b64char _ (Nat.mod_lt _ (by omega)),
          b64val_b64char ((b % 16) * 4) (by omega)]
      · simp only [b64regroup, Option.some.injEq, List.cons.injEq, and_true]
        exact ⟨by omega, by omega⟩
  | a :: b :: c :: rest, h => by
      have ha : a < 256 := h a (by simp)
      have hb : b < 256 := h b (by simp)
      have hc : c < 256 := h c (by simp)
      obtain ⟨vs, hv, hr⟩ := b64_core_roundtrip rest (fun x hx => h x (by simp [hx]))
      refine ⟨(a / 4) % 64 :: ((a % 4) * 16 + b / 16) % 64 ::
              ((b % 16) * 4 + c / 64) % 64 :: c % 64 :: vs, ?_, ?_⟩
      · simp [b64encode, b64vals, hv, b64val_b64char _ (Nat.mod_lt _ (by omega))]
      · simp only [b64regroup, hr, Option.some.injEq, List.cons.injEq]
        exact ⟨by omega, by omega, by omega, trivial⟩

/-! ## Decimal integers, whitespace, splitting -/

/-- Decimal digits of a natural number, least significant first
(structural recursion on a fuel bound so the kernel can evaluate it). -/
def natDigitsLEF : Nat → Nat → List Nat
  | 0, _ => []
  | fuel + 1, n => if n = 0 then [] else n % 10 :: natDigitsLEF fuel (n / 10)

def natDigitsLE (n : Nat) : List Nat := natDigitsLEF n n

theorem natDigitsLEF_congr : ∀ (f1 f2 n : Nat), n ≤ f1 → n ≤ f2 →
    natDigitsLEF f1 n = natDigitsLEF f2 n := by
  intro f1
  induction f1 with
  | zero =>
    intro f2 n h1 h2
    have : n = 0 := by omega
    subst this
    rcases f2 with _ | f2 <;> simp [natDigitsLEF]
  | succ g ih =>
    intro f2 n h1 h2
    by_cases hn : n = 0
    · subst hn
      rcases f2 with _ | f2 <;> simp [natDigitsLEF]
    · rcases f2 with _ | f2
      · omega
      · rw [natDigitsLEF, natDigitsLEF, if_neg hn, if_neg hn]
        have hdiv : n / 10 < n := Nat.div_lt_self (by omega) (by omega)
        rw [ih f2 (n / 10) (by omega) (by omega)]

/-- The intended unfolding of `natDigitsLE`. -/
theorem natDigitsLE_eq (n : Nat) :
    natDigitsLE n = if n = 0 then [] else n % 10 :: natDigitsLE (n / 10) := by
  by_cases hn : n = 0
  · subst hn
    simp [natDigitsLE, natDigitsLEF]
  · rw [natDigitsLE, natDigitsLE]
    rcases hm : n with _ | m
    · omega
    · rw [natDigitsLEF, if_neg (by omega)]
      rw [if_neg (by omega)]
      have hdiv : (m + 1) / 10 < m + 1 := Nat.div_lt_self (by omega) (by omega)
      rw [natDigitsLEF_congr m ((m + 1) / 10) ((m + 1) / 10) (by omega) (by omega)]

/-- ASCII decimal rendering of a natural number. -/
def natBytes (n : Nat) : Bytes :=
  if n = 0 then [48] else (natDigitsLE n).reverse.map (fun d => 48 + d)

/-- ASCII decimal rendering of an integer (`strconv.FormatInt`, and the
form in which `encoding/json` emits an `int64`). -/
def intBytes (i : Int) : Bytes :=
  if i < 0 then 45 :: natBytes i.natAbs else natBytes i.toNat

/-- Is the byte an ASCII decimal digit? -/
def isDigitB (c : Nat) : Bool := 48 ≤ c && c ≤ 57

/-- Big-endian value of a run of ASCII digit bytes. -/
def digitsVal (l : Bytes) : Nat := l.foldl (fun acc c => acc * 10 + (c - 48)) 0

/-- Little-endian value of a digit list. -/
def valLE : List Nat → Nat
  | [] => 0
  | d :: ds => d + 10 * valLE ds

/-- The `int64` bounds. -/
def maxI64 : Int := 9223372036854775807

def minI64 : Int := -9223372036854775808

/-- Digits-and-range phase of `strconv.ParseInt`: a nonempty all-digit
string, with the value checked against the `int64` range (the magnitude
bound is `2^63` for a negative sign, `2^63 - 1` otherwise). -/
def goParseDigits (neg : Bool) (ds : Bytes) : Option Int :=
  if ds = [] then none
  else if ds.all isDigitB then
    let v : Int := (digitsVal ds : Int)
    if neg then if v ≤ 9223372036854775808 then some (-v) else none
    else if v ≤ maxI64 then some v else none
  else none

/-- Model of `strconv.ParseInt(s, 10, 64)`: an optional sign followed by a nonempty
run of digits making up the whole string, rejecting values outside the
`int64` range. -/
def goParseInt : Bytes → Option Int
  | [] => none
  | c :: rest =>
      if c = 43 then goParseDigits false rest
      else if c = 45 then goParseDigits true rest
      else goParseDigits false (c :: rest)

/-- Go `unicode.IsSpace` on the ASCII range (space, tab, newline, vertical
tab, form feed, carriage return). -/
def isSpaceB (c : Nat) : Bool :=
  c = 32 || c = 9 || c = 10 || c = 11 || c = 12 || c = 13

/-- Model of `strings.TrimSpace`: drop whitespace from both ends. -/
def trimSpaceB (l : Bytes) : Bytes :=
  ((l.dropWhile isSpaceB).reverse.dropWhile isSpaceB).reverse

/-- Model of `strings.Split(s, sep)` for a one-byte separator. -/
def splitOnByte (sep : Nat) : Bytes → List Bytes
  | [] => [[]]
  | c :: rest =>
      let ss := splitOnByte sep rest
      if c = sep then [] :: ss
      else
        match ss with
        | s :: t => (c :: s) :: t
        | [] => [[c]]

theorem valLE_natDigitsLE (n : Nat) : valLE (natDigitsLE n) = n := by
  induction n using Nat.strong_induction_on with
  | _ n ih =>
    rw [natDigitsLE_eq]
    by_cases h : n = 0
    · simp [h, valLE]
    · simp only [h, if_false, valLE]
      rw [ih (n / 10) (Nat.div_lt_self (by omega) (by omega))]
      omega

theorem digitsVal_append_digit (l : Bytes) (c : Nat) :
    digitsVal (l ++ [c]) = digitsVal l * 10 + (c - 48) := by
  simp [digitsVal, List.foldl_append]

theorem digitsVal_rev_digits (ds : List Nat) :
    digitsVal (ds.reverse.map (fun d => 48 + d)) = valLE ds := by
  induction ds with
  | nil => simp [digitsVal, valLE]
  | cons d t ih =>
    simp only [List.reverse_cons, List.map_append, List.map_cons, List.map_nil]
    rw [digitsVal_append_digit, ih, valLE]
    omega

theorem digitsVal_natBytes (n : Nat) : digitsVal (natBytes n) = n := by
  rw [natBytes]
  by_cases h : n = 0
  · simp [h, digitsVal]
  · simp only [h, if_false]
    rw [digitsVal_rev_digits, valLE_natDigitsLE]

theorem natDigitsLE_lt (n : Nat) : ∀ d ∈ natDigitsLE n, d < 10 := by
  induction n using Nat.strong_induction_on with
  | _ n ih =>
    rw [natDigitsLE_eq]
    by_cases h : n = 0
    · simp [h]
    · simp only [h, if_false, List.mem_cons]
      intro d hd
      rcases hd with hd | hd
      · omega
      · exact ih (n / 10) (Nat.div_lt_self (by omega) (by omega)) d hd

theorem mem_natBytes (n : Nat) : ∀ c ∈ natBytes n, 48 ≤ c ∧ c ≤ 57 := by
  intro c hc
  rw [natBytes] at hc
  by_cases h : n = 0
  · simp [h] at hc
    omega
  · simp only [h, if_false, List.mem_map, List.mem_reverse] at hc
    obtain ⟨d, hd, rfl⟩ := hc
    have := natDigitsLE_lt n d hd
    omega

theorem natBytes_all_digits (n : Nat) : (natBytes n).all isDigitB = true := by
  rw [List.all_eq_true]
  intro c hc
  have := mem_natBytes n c hc
  simp only [isDigitB, Bool.and_eq_true, decide_eq_true_eq]
  omega

theorem natBytes_ne_nil (n : Nat) : natBytes n ≠ [] := by
  rw [natBytes]
  by_cases h : n = 0
  · simp [h]
  · simp only [h, if_false]
    intro he
    have : valLE (natDigitsLE n) = n := valLE_natDigitsLE n
    rcases hd : natDigitsLE n with _ | ⟨a, t⟩
    · rw [hd] at this
      simp [valLE] at this
      omega
    · simp [hd] at he

theorem mem_intBytes (i : Int) : ∀ c ∈ intBytes i, c = 45 ∨ (48 ≤ c ∧ c ≤ 57) := by
  intro c hc
  rw [intBytes] at hc
  by_cases h : i < 0
  · simp only [h, if_true, List.mem_cons] at hc
    rcases hc with hc | hc
    · exact Or.inl hc
    · exact Or.inr (mem_natBytes _ c hc)
  · simp only [h, if_false] at hc
    exact Or.inr (mem_natBytes _ c hc)

theorem intBytes_lt (i : Int) : ∀ c ∈ intBytes i, c < 256 := by
  intro c hc
  rcases mem_intBytes i c hc with h | h <;> omega

theorem goParseDigits_natBytes_pos (n : Nat) (h : (n : Int) ≤ maxI64) :
    goParseDigits false (natBytes n) = some (n : Int) := by
  rw [goParseDigits]
  simp only [natBytes_ne_nil n, if_false, natBytes_all_digits n, if_true,
    Bool.false_eq_true, digitsVal_natBytes n, h]

/-- The parser `goParseInt` inverts decimal rendering on the `int64` range. -/
theorem goParseInt_intBytes (i : Int) (hlo : minI64 ≤ i) (hhi : i ≤ maxI64) :
    goParseInt (intBytes i) = some i := by
  rw [minI64] at hlo
  rw [maxI64] at hhi
  by_cases h : i < 0
  · rw [intBytes, if_pos h, goParseInt]
    rw [if_neg (by omega), if_pos rfl, goParseDigits]
    simp only [natBytes_ne_nil _, if_false, natBytes_all_digits _, if_true,
      digitsVal_natBytes _]
    rw [if_pos (by omega : (i.natAbs : Int) ≤ 9223372036854775808)]
    congr 1
    omega
  · rw [intBytes, if_neg h]
    match hnb : natBytes i.toNat with
    | [] => exact absurd hnb (natBytes_ne_nil _)
    | c :: rest =>
      have hcm := mem_natBytes i.toNat c (by rw [hnb]; simp)
      rw [goParseInt, if_neg (by omega), if_neg (by omega), ← hnb]
      rw [goParseDigits_natBytes_pos i.toNat (by rw [maxI64]; omega)]
      congr 1
      omega


/-! ## A fragment of `encoding/json`

`ValidateAccessToken` unmarshals the payload into a struct with three
`int64` fields (`user_id`, `iat`, `exp`) and one string field (`sub`),
ignoring unknown keys. The model below covers the JSON fragment that
such payloads use: one flat object whose values are strings, integers,
booleans or null, without interleaved whitespace (`json.Marshal` emits
none). As in Go, a string value for an integer field (or vice versa) is
an error, `null` leaves the field untouched, unknown keys are skipped,
and a later duplicate key overwrites an earlier one. -/

/-- Byte of an escaped character after a backslash inside a JSON string. -/
def escByte (e : Nat) : Option Nat :=
  if e = 34 then some 34
  else if e = 92 then some 92
  else if e = 47 then some 47
  else if e = 98 then some 8
  else if e = 102 then some 12
  else if e = 110 then some 10
  else if e = 114 then some 13
  else if e = 116 then some 9
  else none

/-- Parse the body of a JSON string after the opening quote; returns the
decoded content and the bytes after the closing quote. Control bytes
below 0x20 are rejected, as in Go. -/
def parseJStringBody : Bytes → Option (Bytes × Bytes)
  | [] => none
  | c :: rest =>
      if c = 34 then some ([], rest)
      else if c = 92 then
        match rest with
        | [] => none
        | e :: rest2 =>
            (escByte e).bind (fun ch =>
              (parseJStringBody rest2).map (fun sr => (ch :: sr.1, sr.2)))
      else if c < 32 then none
      else (parseJStringBody rest).map (fun sr => (c :: sr.1, sr.2))

/-- Digit-run phase of parsing a JSON integer: the leading digits and the
value they denote, rejecting an empty run and a following fraction or
exponent marker (which Go cannot unmarshal into an `int64`). -/
def parseJsonNumCore (l : Bytes) : Option (Nat × Bytes) :=
  let ds := l.takeWhile isDigitB
  let rest := l.dropWhile isDigitB
  if ds = [] then none
  else if rest.head? = some 46 ∨ rest.head? = some 101 ∨ rest.head? = some 69 then none
  else some (digitsVal ds, rest)

/-- Parse a JSON integer for an `int64` target: optional minus sign, a
nonempty digit run, rejecting values outside the `int64` range. -/
def parseJsonInt (l : Bytes) : Option (Int × Bytes) :=
  match l with
  | [] => none
  | c :: rest =>
      if c = 45 then
        (parseJsonNumCore rest).bind (fun nr =>
          if (nr.1 : Int) ≤ 9223372036854775808 then some (-(nr.1 : Int), nr.2) else none)
      else
        (parseJsonNumCore (c :: rest)).bind (fun nr =>
          if (nr.1 : Int) ≤ maxI64 then some ((nr.1 : Int), nr.2) else none)

/-- A scalar JSON value. -/
inductive JVal where
  | jint (i : Int)
  | jstr (s : Bytes)
  | jbool (b : Bool)
  | jnull
deriving DecidableEq, Repr

/-- Parse one scalar JSON value. -/
def parseJVal (l : Bytes) : Option (JVal × Bytes) :=
  match l with
  | 34 :: rest => (parseJStringBody rest).map (fun sr => (.jstr sr.1, sr.2))
  | 116 :: 114 :: 117 :: 101 :: rest => some (.jbool true, rest)
  | 102 :: 97 :: 108 :: 115 :: 101 :: rest => some (.jbool false, rest)
  | 110 :: 117 :: 108 :: 108 :: rest => some (.jnull, rest)
  | c :: rest =>
      if c = 45 ∨ isDigitB c then
        (parseJsonInt (c :: rest)).map (fun ir => (.jint ir.1, ir.2))
      else none
  | [] => none

theorem parseJStringBody_consumed_aux : ∀ (n : Nat) (l s r : Bytes), l.length ≤ n →
    parseJStringBody l = some (s, r) → r.length < l.length
  | 0, [], s, r, _, h => by simp [parseJStringBody] at h
  | 0, c :: rest, s, r, hl, _ => by simp at hl
  | n + 1, [], s, r, _, h => by simp [parseJStringBody] at h
  | n + 1, c :: rest, s, r, hl, h => by
      rw [parseJStringBody.eq_def] at h
      simp only [] at h
      by_cases h34 : c = 34
      · rw [if_pos h34] at h
        simp only [Option.some.injEq, Prod.mk.injEq] at h
        obtain ⟨-, h2⟩ := h
        subst h2
        simp
      · rw [if_neg h34] at h
        by_cases h92 : c = 92
        · rw [if_pos h92] at h
          rcases rest with _ | ⟨e, rest2⟩
          · simp at h
          · simp only [Option.bind_eq_some, Option.map_eq_some'] at h
            obtain ⟨ch, -, ⟨s2, r2⟩, hrec, hpair⟩ := h
            simp only [Prod.mk.injEq] at hpair
            obtain ⟨-, h2⟩ := hpair
            subst h2
            have hlen : rest2.length ≤ n := by
              simp only [List.length_cons] at hl
              omega
            have := parseJStringBody_consumed_aux n rest2 s2 r2 hlen hrec
            simp only [List.length_cons]
            omega
        · rw [if_neg h92] at h
          by_cases hctl : c < 32
          · rw [if_pos hctl] at h
            simp at h
          · rw [if_neg hctl] at h
            simp only [Option.map_eq_some'] at h
            obtain ⟨⟨s2, r2⟩, hrec, hpair⟩ := h
            simp only [Prod.mk.injEq] at hpair
            obtain ⟨-, h2⟩ := hpair
            subst h2
            have hlen : rest.length ≤ n := by
              simp only [List.length_cons] at hl
              omega
            have := parseJStringBody_consumed_aux n rest s2 r2 hlen hrec
            simp only [List.length_cons]
            omega

theorem parseJStringBody_consumed (l s r : Bytes) :
    parseJStringBody l = some (s, r) → r.length < l.length :=
  parseJStringBody_consumed_aux l.length l s r (Nat.le_refl _)

theorem dropWhile_len_le (p : Nat → Bool) (l : Bytes) :
    (l.dropWhile p).length ≤ l.length := by
  induction l with
  | nil => simp
  | cons a t ih =>
    rw [List.dropWhile_cons]
    by_cases hp : p a
    · simp only [hp, if_true, List.length_cons]
      omega
    · simp [hp]

theorem dropWhile_shorter (p : Nat → Bool) (l : Bytes) (h : l.takeWhile p ≠ []) :
    (l.dropWhile p).length < l.length := by
  rcases l with _ | ⟨a, t⟩
  · simp at h
  · rw [List.takeWhile_cons] at h
    rw [List.dropWhile_cons]
    by_cases hp : p a
    · simp only [hp, if_true]
      have := dropWhile_len_le p t
      simp only [List.length_cons]
      omega
    · simp [hp] at h

theorem parseJsonNumCore_consumed (l : Bytes) (n : Nat) (r : Bytes) :
    parseJsonNumCore l = some (n, r) → r.length < l.length := by
  intro h
  rw [parseJsonNumCore] at h
  by_cases hds : l.takeWhile isDigitB = []
  · simp [hds] at h
  · simp only [hds, if_false] at h
    split at h
    · simp at h
    · simp only [Option.some.injEq, Prod.mk.injEq] at h
      obtain ⟨-, h2⟩ := h
      subst h2
      exact dropWhile_shorter isDigitB l hds

theorem parseJsonInt_consumed (l : Bytes) (i : Int) (r : Bytes) :
    parseJsonInt l = some (i, r) → r.length < l.length := by
  intro h
  rcases l with _ | ⟨c, rest⟩
  · simp [parseJsonInt] at h
  · rw [parseJsonInt.eq_def] at h
    simp only [] at h
    by_cases h45 : c = 45
    · rw [if_pos h45] at h
      simp only [Option.bind_eq_some] at h
      obtain ⟨⟨nn, r2⟩, hc, hf⟩ := h
      split at hf
      · simp only [Option.some.injEq, Prod.mk.injEq] at hf
        obtain ⟨-, h2⟩ := hf
        subst h2
        have := parseJsonNumCore_consumed rest nn r2 hc
        simp only [List.length_cons]
        omega
      · simp at hf
    · rw [if_neg h45] at h
      simp only [Option.bind_eq_some] at h
      obtain ⟨⟨nn, r2⟩, hc, hf⟩ := h
      split at hf
      · simp only [Option.some.injEq, Prod.mk.injEq] at hf
        obtain ⟨-, h2⟩ := hf
        subst h2
        exact parseJsonNumCore_consumed (c :: rest) nn r2 hc
      · simp at hf

theorem parseJVal_consumed (l : Bytes) (v : JVal) (r : Bytes) :
    parseJVal l = some (v, r) → r.length < l.length := by
  intro h
  rw [parseJVal.eq_def] at h
  split at h
  · simp only [Option.map_eq_some'] at h
    obtain ⟨⟨s2, r2⟩, hrec, hpair⟩ := h
    simp only [Prod.mk.injEq] at hpair
    obtain ⟨-, h2⟩ := hpair
    subst h2
    have := parseJStringBody_consumed _ s2 r2 hrec
    simp only [List.length_cons]
    omega
  · simp only [Option.some.injEq, Prod.mk.injEq] at h
    obtain ⟨-, h2⟩ := h
    subst h2
    simp only [List.length_cons]
    omega
  · simp only [Option.some.injEq, Prod.mk.injEq] at h
    obtain ⟨-, h2⟩ := h
    subst h2
    simp only [List.length_cons]
    omega
  · simp only [Option.some.injEq, Prod.mk.injEq] at h
    obtain ⟨-, h2⟩ := h
    subst h2
    simp only [List.length_cons]
    omega
  · split at h
    · simp only [Option.map_eq_some'] at h
      obtain ⟨⟨i2, r2⟩, hrec, hpair⟩ := h
      simp only [Prod.mk.injEq] at hpair
      obtain ⟨-, h2⟩ := hpair
      subst h2
      exact parseJsonInt_consumed _ i2 r2 hrec
    · simp at h
  · simp at h

/-- Parse the members of a JSON object after the opening brace: either an
immediate closing brace, or `"key":value` members separated by commas
(after a comma another key must follow — no trailing comma), ending at
the closing brace. Returns the members in order and the bytes after the
closing brace. Structural recursion on a fuel bound so the kernel can
evaluate it; every recursive call consumes input, so any fuel above the
input length computes the same answer (`parseFieldsF_congr`). -/
def parseFieldsF : Nat → Bytes → Option (List (Bytes × JVal) × Bytes)
  | 0, _ => none
  | fuel + 1, l =>
      match l with
      | 125 :: rest => some ([], rest)
      | 34 :: rest =>
          match parseJStringBody rest with
          | none => none
          | some (key, r1) =>
              match r1 with
              | 58 :: r2 =>
                  match parseJVal r2 with
                  | none => none
                  | some (v, r3) =>
                      match r3 with
                      | 125 :: r4 => some ([(key, v)], r4)
                      | 44 :: r4 =>
                          match r4 with
                          | 34 :: _ =>
                              match parseFieldsF fuel r4 with
                              | none => none
                              | some (fs, rf) => some ((key, v) :: fs, rf)
                          | _ => none
                      | _ => none
              | _ => none
      | _ => none

def parseFields (l : Bytes) : Option (List (Bytes × JVal) × Bytes) :=
  parseFieldsF (l.length + 1) l

theorem parseFieldsF_congr : ∀ (f1 f2 : Nat) (l : Bytes), l.length < f1 → l.length < f2 →
    parseFieldsF f1 l = parseFieldsF f2 l := by
  intro f1
  induction f1 with
  | zero =>
    intro f2 l h1 h2
    omega
  | succ g ih =>
    intro f2 l h1 h2
    rcases f2 with _ | h
    · omega
    · rw [parseFieldsF.eq_def]
      conv_rhs => rw [parseFieldsF.eq_def]
      simp only []
      split
      · rfl
      · rename_i rest
        rcases hs : parseJStringBody rest with _ | ⟨key, r1⟩
        · rfl
        · simp only []
          have hlen1 := parseJStringBody_consumed _ _ _ hs
          split
          · rename_i r2
            rcases hv : parseJVal r2 with _ | ⟨v, r3⟩
            · rfl
            · simp only []
              have hlen2 := parseJVal_consumed _ _ _ hv
              split
              · rfl
              · split
                · rename_i tail
                  rw [ih h (34 :: tail) (by simp only [List.length_cons] at *; omega)
                    (by simp only [List.length_cons] at *; omega)]
                · rfl
              · rfl
          · rfl
      · rfl

/-- Parse one whole JSON object covering the entire input (the payload
handed to `json.Unmarshal` is exactly one object). -/
def parseTopObject (l : Bytes) : Option (List (Bytes × JVal)) :=
  match l with
  | 123 :: rest =>
      match parseFields rest with
      | none => none
      | some (fs, r) => if r = [] then some fs else none
  | _ => none

/-- The claims struct of `ValidateAccessToken`:
`user_id int64`, `sub string`, `iat int64`, `exp int64`. -/
structure TokenClaims where
  userID : Int
  sub : Bytes
  iat : Int
  exp : Int
deriving DecidableEq, Repr

/-- JSON object keys used by the token subsystem (`exp`, `iat`,
`restaurant_id`, `sub`, `user_id` in ASCII). -/
def keyExp : Bytes := [101, 120, 112]

def keyIat : Bytes := [105, 97, 116]

def keyRid : Bytes := [114, 101, 115, 116, 97, 117, 114, 97, 110, 116, 95, 105, 100]

def keySub : Bytes := [115, 117, 98]

def keyUid : Bytes := [117, 115, 101, 114, 95, 105, 100]

/-- Apply one `key: value` member to the claims struct, as
`json.Unmarshal` does: matching keys must carry a value of the field's
type (`null` is a no-op), unknown keys are ignored. -/
def applyClaimField (c : TokenClaims) (kv : Bytes × JVal) : Option TokenClaims :=
  if kv.1 = keyUid then
    match kv.2 with
    | .jint i => some { c with userID := i }
    | .jnull => some c
    | _ => none
  else if kv.1 = keySub then
    match kv.2 with
    | .jstr s => some { c with sub := s }
    | .jnull => some c
    | _ => none
  else if kv.1 = keyIat then
    match kv.2 with
    | .jint i => some { c with iat := i }
    | .jnull => some c
    | _ => none
  else if kv.1 = keyExp then
    match kv.2 with
    | .jint i => some { c with exp := i }
    | .jnull => some c
    | _ => none
  else some c

/-- Model of `json.Unmarshal` of the payload into the claims struct: parse the
object, then fold its members left to right over the zero-valued struct. -/
def unmarshalClaims (l : Bytes) : Option TokenClaims :=
  match parseTopObject l with
  | none => none
  | some fs => fs.foldlM applyClaimField ⟨0, [], 0, 0⟩

/-! ## The user service (`internal/service/user.go`)

`repository.User` rows carry `ID`, `Username`, `PasswordHash`,
`RestaurantID` and `CreatedAt`; the token and authorization paths only
read `ID` and `RestaurantID`, so the model keeps those two fields. The
user store (`UserRepository.GetByID`) is modelled as a function from ids
to an optional user row. -/

/-- The fields of `repository.User` read on the token/authorization paths. -/
structure GoUser where
  id : Int
  restaurantID : Int
deriving DecidableEq, Repr

/-- The `UserService` state relevant to tokens: the secret and the TTL
(in seconds; `tokenTTL` is a `time.Duration`, applied via `now.Add`). -/
structure UserServiceCfg where
  tokenSecret : Bytes
  tokenTTL : Int
deriving DecidableEq, Repr

/-- The default TTL `defaultTokenTTL = 15 * time.Minute`, in seconds. -/
def defaultTokenTTL : Int := 900

/-- The byte string `change-me`. -/
def changeMeBytes : Bytes := [99, 104, 97, 110, 103, 101, 45, 109, 101]

/-- Model of `NewUser`: a non-positive TTL becomes the default and an empty secret
becomes `change-me` (repository wiring is out of the token model). -/
def newUser (tokenSecret : Bytes) (tokenTTL : Int) : UserServiceCfg :=
  { tokenSecret := if tokenSecret = [] then changeMeBytes else tokenSecret
    tokenTTL := if tokenTTL ≤ 0 then defaultTokenTTL else tokenTTL }

/-- Model of `json.Marshal` of the fixed header map: map keys are emitted sorted,
so the bytes are `{"alg":"HS256","typ":"JWT"}`. -/
def headerJSON : Bytes :=
  [123, 34, 97, 108, 103, 34, 58, 34, 72, 83, 50, 53, 54, 34, 44,
   34, 116, 121, 112, 34, 58, 34, 74, 87, 84, 34, 125]

/-- Model of `json.Marshal` of a claims map of the issuer's shape with an
arbitrary `sub` string: map keys sorted alphabetically and no
whitespace, i.e.
`{"exp":E,"iat":I,"restaurant_id":R,"sub":"S","user_id":U}`. -/
def claimsJSONSub (uid rid : Int) (sub : Bytes) (iat exp : Int) : Bytes :=
  123 :: 34 :: (keyExp ++ 34 :: 58 :: (intBytes exp ++
  44 :: 34 :: (keyIat ++ 34 :: 58 :: (intBytes iat ++
  44 :: 34 :: (keyRid ++ 34 :: 58 :: (intBytes rid ++
  44 :: 34 :: (keySub ++ 34 :: 58 :: 34 :: (sub ++
  34 :: 44 :: 34 :: (keyUid ++ 34 :: 58 :: (intBytes uid ++ [125]))))))))))

/-- Model of `json.Marshal` of the claims map built by `generateToken`: the `sub`
member is the decimal rendering of the user id (`strconv.FormatInt`). -/
def claimsJSON (uid rid iat exp : Int) : Bytes :=
  claimsJSONSub uid rid (intBytes uid) iat exp

/-- Assemble and sign a token from a payload: base64url-encode header and
payload, MAC the dot-joined pair with HMAC-SHA256, and append the
base64url-encoded signature (the signing steps of `generateToken`). -/
def signedTokenOf (secret payload : Bytes) : Bytes :=
  let unsigned := b64encode headerJSON ++ 46 :: b64encode payload
  unsigned ++ 46 :: b64encode (hmacSha256 secret unsigned)

/-- Model of `UserService.generateToken`: fails only on an empty secret, otherwise
issues the signed token for claims
`{user_id, restaurant_id, sub = FormatInt(user_id), iat = now, exp = now + ttl}`. -/
def generateToken (cfg : UserServiceCfg) (u : GoUser) (now : Int) : Except String Bytes :=
  if cfg.tokenSecret = [] then .error ("token secret not configured")
  else .ok (signedTokenOf cfg.tokenSecret (claimsJSON u.id u.restaurantID now (now + cfg.tokenTTL)))

/-- The two failures `ValidateAccessToken` can report on its own path. -/
inductive AuthErr where
  | invalidToken
  | tokenExpired
deriving DecidableEq, Repr

/-- The claims-level tail of `ValidateAccessToken`: the `sub` fallback
(`user_id == 0 && sub != ""`, `strconv.ParseInt`), the missing-subject
check, and the expiry check `exp != 0 && now > exp`. -/
def claimsStage (now : Int) (c0 : TokenClaims) : Except AuthErr TokenClaims :=
  let c := if c0.userID = 0 ∧ c0.sub ≠ [] then
             match goParseInt c0.sub with
             | some v => { c0 with userID := v }
             | none => c0
           else c0
  if c.userID = 0 then .error .invalidToken
  else if c.exp ≠ 0 ∧ now > c.exp then .error .tokenExpired
  else .ok c

/-- The token-decoding portion of `UserService.ValidateAccessToken` (all
steps before the user lookup): trim, split on dots into exactly three
segments, base64url-decode the signature, recompute the HMAC over the
first two segments byte-for-byte and compare, base64url-decode and
unmarshal the payload, then `claimsStage`. -/
def decodeClaims (secret : Bytes) (now : Int) (token : Bytes) : Except AuthErr TokenClaims :=
  let tok := trimSpaceB token
  if tok = [] then .error .invalidToken
  else
    match splitOnByte 46 tok with
    | [p0, p1, p2] =>
        match b64decode p2 with
        | none => .error .invalidToken
        | some sig =>
            if hmacSha256 secret (p0 ++ 46 :: p1) = sig then
              match b64decode p1 with
              | none => .error .invalidToken
              | some payload =>
                  match unmarshalClaims payload with
                  | none => .error .invalidToken
                  | some c0 => claimsStage now c0
            else .error .invalidToken
    | _ => .error .invalidToken

/-- Model of `UserService.ValidateAccessToken`: decode the token, then resolve the
subject through the user store; a missing row is `ErrInvalidToken`. -/
def validateAccessToken (cfg : UserServiceCfg) (store : Int → Option GoUser)
    (now : Int) (token : Bytes) : Except AuthErr GoUser :=
  match decodeClaims cfg.tokenSecret now token with
  | .error e => .error e
  | .ok c =>
      match store c.userID with
      | none => .error .invalidToken
      | some u => .ok u

deriving instance DecidableEq for Except

/-! ## Orders (`internal/service/order.go`, `internal/repository` order table)

The order table is modelled as the list of committed rows, threaded
through the calls; `restaurantRepo.Exists` / `ingredientRepo.Exists` are
oracle functions; storage faults inside the transaction are injected via
an oracle on the item index plus a commit-failure flag. -/

/-- The columns of an `orders` row written by `CreateBulk`
(`id`/timestamps are database-assigned and not modelled). -/
structure OrderRow where
  code : Bytes
  restaurantID : Int
  ingredientID : Int
  number : Int
deriving DecidableEq, Repr

/-- One incoming order line (`service.OrderItem`). -/
structure OrderItem where
  ingredientID : Int
  number : Int
deriving DecidableEq, Repr

/-- Caller-visible errors of the order service. -/
inductive OrderErr where
  | invalidRestaurantID
  | restaurantNotFound
  | emptyItems
  | invalidIngredientID
  | invalidNumber
  | ingredientNotFound
  | storeFailed
deriving DecidableEq, Repr

/-- The row written by the `INSERT` inside `CreateBulk`: the restaurant id
column comes from the `restaurantID` argument, the rest from the item. -/
def insertRow (rid : Int) (item : OrderRow) : OrderRow :=
  { item with restaurantID := rid }

/-- The insert loop of `OrderRepository.CreateBulk` inside the open
transaction: `execFails i` injects a driver error on the `i`-th
`ExecContext`; on success returns the rows buffered in the transaction. -/
def createBulkLoop (execFails : Nat → Bool) (rid : Int) :
    Nat → List OrderRow → List OrderRow → Option (List OrderRow)
  | _, pending, [] => some pending
  | idx, pending, item :: rest =>
      if execFails idx then none
      else createBulkLoop execFails rid (idx + 1) (pending ++ [insertRow rid item]) rest

/-- Model of `OrderRepository.CreateBulk`: empty input returns immediately;
otherwise begin a transaction, insert each row, roll back on the first
exec error (leaving the table unchanged), and commit at the end (a
commit failure also leaves the table unchanged). Returns the call result
and the resulting table. -/
def createBulk (execFails : Nat → Bool) (commitFails : Bool) (db : List OrderRow)
    (rid : Int) (items : List OrderRow) : Except String Unit × List OrderRow :=
  if items = [] then (.ok (), db)
  else
    match createBulkLoop execFails rid 0 [] items with
    | none => (.error ("insert order"), db)
    | some pending =>
        if commitFails then (.error ("commit orders"), db)
        else (.ok (), db ++ pending)

/-- The code prefix `ORD-` in ASCII. -/
def ordPre : Bytes := [79, 82, 68, 45]

/-- Model of `fmt.Sprintf("ORD-%d-%d-%d", restaurantID, now, idx)` where `now` is
the call's `UnixNano` timestamp and `idx` the item's batch index. -/
def orderCode (rid now : Int) (idx : Nat) : Bytes :=
  ordPre ++ intBytes rid ++ 45 :: intBytes now ++ 45 :: natBytes idx

/-- The validation walk of `CreateOrders` over the items, fail-fast in
input order, building the rows to persist. -/
def createOrdersLoop (ingredientExists : Int → Bool) (rid now : Int) :
    Nat → List OrderItem → Except OrderErr (List OrderRow)
  | _, [] => .ok []
  | idx, it :: rest =>
      if it.ingredientID ≤ 0 then .error .invalidIngredientID
      else if it.number ≤ 0 then .error .invalidNumber
      else if ingredientExists it.ingredientID then
        match createOrdersLoop ingredientExists rid now (idx + 1) rest with
        | .error e => .error e
        | .ok rows =>
            .ok ({ code := orderCode rid now idx, restaurantID := rid,
                   ingredientID := it.ingredientID, number := it.number } :: rows)
      else .error .ingredientNotFound

/-- Model of `OrderService.CreateOrders`: validate the restaurant id, non-empty
items and restaurant existence, validate each item fail-fast, then
persist the whole batch through `CreateBulk`. Returns the call result
and the resulting order table. -/
def createOrders (restaurantExists ingredientExists : Int → Bool)
    (execFails : Nat → Bool) (commitFails : Bool) (db : List OrderRow)
    (rid : Int) (items : List OrderItem) (now : Int) :
    Except OrderErr Unit × List OrderRow :=
  if rid ≤ 0 then (.error .invalidRestaurantID, db)
  else if items = [] then (.error .emptyItems, db)
  else if restaurantExists rid then
    match createOrdersLoop ingredientExists rid now 0 items with
    | .error e => (.error e, db)
    | .ok rows =>
        match createBulk execFails commitFails db rid rows with
        | (.ok _, db2) => (.ok (), db2)
        | (.error _, db2) => (.error .storeFailed, db2)
  else (.error .restaurantNotFound, db)

/-- Model of `OrderService.GetOrdersByRestaurant` with the restaurant-existence,
name and listing collaborators as oracles (`getName rid = none` models
`sql.ErrNoRows`). -/
def getOrdersByRestaurant (restaurantExists : Int → Bool)
    (getName : Int → Option String) (listOrders : Int → List OrderRow)
    (rid : Int) : Except OrderErr (List OrderRow × String) :=
  if rid ≤ 0 then .error .invalidRestaurantID
  else if restaurantExists rid then
    match getName rid with
    | none => .error .restaurantNotFound
    | some name => .ok (listOrders rid, name)
  else .error .restaurantNotFound

/-! ## The two listing handlers (`internal/transport/http`)

`OrderDetailHandler` (route `/order/{id}`, the enforcing variant) and
`OrderBACHandler` (route `/order-bac/{id}`, the bypassing variant).
A handler result is the written response paired with a flag recording
whether `GetOrdersByRestaurant` was invoked. -/

/-- A written HTTP response: an error body with its status, or the
success payload (the order rows and restaurant name that the handler
serializes with `count` and RFC3339 timestamps). -/
inductive HttpOut where
  | failure (status : Nat) (msg : String)
  | success (orders : List OrderRow) (name : String)
deriving DecidableEq, Repr

/-- The collaborators both handlers consult. -/
structure HandlerEnv where
  cfg : UserServiceCfg
  store : Int → Option GoUser
  now : Int
  restaurantExists : Int → Bool
  getName : Int → Option String
  listOrders : Int → List OrderRow

/-- The request data both handlers read. -/
structure HttpRequest where
  method : String
  path : Bytes
  authHeader : Bytes

/-- The prefix `Bearer ` in ASCII (trailing space included). -/
def bearerBytes : Bytes := [66, 101, 97, 114, 101, 114, 32]

/-- The route prefix of `/order-bac/` in ASCII. -/
def orderBacPathPre : Bytes := [47, 111, 114, 100, 101, 114, 45, 98, 97, 99, 47]

/-- The route prefix of `/order/` in ASCII. -/
def orderPathPre : Bytes := [47, 111, 114, 100, 101, 114, 47]

/-- Model of `extractRestaurantID`: strip the route prefix, trim, parse a decimal
`int64`; `none` is the handler's 400 "invalid restaurant id". -/
def extractRestaurantID (pre path : Bytes) : Option Int :=
  if pre.isPrefixOf path then
    let idPart := trimSpaceB (path.drop pre.length)
    if idPart = [] then none else goParseInt idPart
  else none

/-- Model of `OrderBACHandler.ServeHTTP`: method check, id extraction, bearer
credential extraction, token validation — and then the data fetch with
no tenant-ownership comparison at all. -/
def orderBACHandler (env : HandlerEnv) (req : HttpRequest) : HttpOut × Bool :=
  if req.method ≠ "GET" then (.failure 405 "method not allowed", false)
  else
    match extractRestaurantID orderBacPathPre req.path with
    | none => (.failure 400 "invalid restaurant id", false)
    | some rid =>
        let ah := trimSpaceB req.authHeader
        if ah = [] ∨ ¬ bearerBytes.isPrefixOf ah then
          (.failure 401 "missing or invalid authorization header", false)
        else
          let token := trimSpaceB (ah.drop bearerBytes.length)
          match validateAccessToken env.cfg env.store env.now token with
          | .error .invalidToken => (.failure 401 "invalid token", false)
          | .error .tokenExpired => (.failure 401 "token expired", false)
          | .ok _ =>
              match getOrdersByRestaurant env.restaurantExists env.getName env.listOrders rid with
              | .error .invalidRestaurantID => (.failure 400 "invalid restaurant id", true)
              | .error .restaurantNotFound => (.failure 404 "restaurant not found", true)
              | .error _ => (.failure 500 "internal server error", true)
              | .ok (orders, name) => (.success orders name, true)

/-- Model of `OrderDetailHandler.ServeHTTP`: same pipeline on route `/order/{id}`,
plus the ownership check
`user.RestaurantID != 0 && user.RestaurantID != restaurantID → 403`
between token validation and the data fetch. -/
def orderDetailHandler (env : HandlerEnv) (req : HttpRequest) : HttpOut × Bool :=
  if req.method ≠ "GET" then (.failure 405 "method not allowed", false)
  else
    match extractRestaurantID orderPathPre req.path with
    | none => (.failure 400 "invalid restaurant id", false)
    | some rid =>
        let ah := trimSpaceB req.authHeader
        if ah = [] ∨ ¬ bearerBytes.isPrefixOf ah then
          (.failure 401 "missing or invalid authorization header", false)
        else
          let token := trimSpaceB (ah.drop bearerBytes.length)
          match validateAccessToken env.cfg env.store env.now token with
          | .error .invalidToken => (.failure 401 "invalid token", false)
          | .error .tokenExpired => (.failure 401 "token expired", false)
          | .ok user =>
              if user.restaurantID ≠ 0 ∧ user.restaurantID ≠ rid then
                (.failure 403 "order data does not belong to your restaurant", false)
              else
                match getOrdersByRestaurant env.restaurantExists env.getName env.listOrders rid with
                | .error .invalidRestaurantID => (.failure 403 "restaurant not linked to user", true)
                | .error .restaurantNotFound => (.failure 404 "restaurant not found", true)
                | .error _ => (.failure 500 "internal server error", true)
                | .ok (orders, name) => (.success orders name, true)

/-! ## Support lemmas: trimming, splitting, signed-token decoding -/

theorem dropWhile_eq_self_of_head (p : Nat → Bool) (l : Bytes)
    (h : ∀ c, l.head? = some c → p c = false) : l.dropWhile p = l := by
  rcases l with _ | ⟨a, t⟩
  · simp
  · rw [List.dropWhile_cons, h a rfl]
    simp

theorem trimSpaceB_eq_self (l : Bytes)
    (h1 : ∀ c, l.head? = some c → isSpaceB c = false)
    (h2 : ∀ c, l.reverse.head? = some c → isSpaceB c = false) :
    trimSpaceB l = l := by
  rw [trimSpaceB, dropWhile_eq_self_of_head _ _ h1,
    dropWhile_eq_self_of_head _ _ h2, List.reverse_reverse]

theorem trimSpaceB_eq_self_of_all (l : Bytes)
    (h : ∀ c ∈ l, isSpaceB c = false) : trimSpaceB l = l := by
  refine trimSpaceB_eq_self l ?_ ?_
  · intro c hc
    exact h c (by rcases l with _ | ⟨a, t⟩ <;> simp_all)
  · intro c hc
    rcases hr : l.reverse with _ | ⟨a, t⟩ <;> rw [hr] at hc
    · simp at hc
    · simp only [List.head?_cons, Option.some.injEq] at hc
      subst hc
      refine h a ?_
      have : a ∈ l.reverse := by
        rw [hr]
        simp
      simpa using this

theorem splitOnByte_ne_nil (sep : Nat) (l : Bytes) : splitOnByte sep l ≠ [] := by
  rcases l with _ | ⟨c, rest⟩
  · simp [splitOnByte]
  · rw [splitOnByte]
    by_cases hc : c = sep
    · simp [hc]
    · simp only [hc, if_false]
      rcases splitOnByte sep rest with _ | ⟨s, t⟩ <;> simp

theorem splitOnByte_no_sep (sep : Nat) (l : Bytes) (h : ∀ c ∈ l, c ≠ sep) :
    splitOnByte sep l = [l] := by
  induction l with
  | nil => simp [splitOnByte]
  | cons c rest ih =>
    rw [splitOnByte]
    have hc : c ≠ sep := h c (by simp)
    simp only [hc, if_false]
    rw [ih (fun x hx => h x (by simp [hx]))]

theorem splitOnByte_append (sep : Nat) (l1 l2 : Bytes) (h : ∀ c ∈ l1, c ≠ sep) :
    splitOnByte sep (l1 ++ sep :: l2) = l1 :: splitOnByte sep l2 := by
  induction l1 with
  | nil => simp [splitOnByte]
  | cons c rest ih =>
    rw [List.cons_append, splitOnByte]
    have hc : c ≠ sep := h c (by simp)
    simp only [hc, if_false]
    rw [ih (fun x hx => h x (by simp [hx]))]

theorem b64decode_encode (l : Bytes) (h : ∀ b ∈ l, b < 256) :
    b64decode (b64encode l) = some l := by
  obtain ⟨vs, hv, hr⟩ := b64_core_roundtrip l h
  rw [b64decode]
  have hf : (b64encode l).filter (fun c => !(c == 10 || c == 13)) = b64encode l := by
    rw [List.filter_eq_self]
    intro c hc
    obtain ⟨v, hvlt, rfl⟩ := mem_b64encode _ c hc
    obtain ⟨hn10, hn13⟩ := b64char_ne_nl v hvlt
    simp [hn10, hn13]
  rw [hf, hv]
  simpa using hr

theorem b64char_not_space : ∀ v < 64, isSpaceB (b64char v) = false := by decide

theorem mem_b64encode_not_space (l : Bytes) : ∀ c ∈ b64encode l, isSpaceB c = false := by
  intro c hc
  obtain ⟨v, hvlt, rfl⟩ := mem_b64encode _ c hc
  exact b64char_not_space v hvlt

theorem mem_b64encode_ne_dot (l : Bytes) : ∀ c ∈ b64encode l, c ≠ 46 := by
  intro c hc
  obtain ⟨v, hvlt, rfl⟩ := mem_b64encode _ c hc
  exact b64char_ne_dot v hvlt

theorem hmacSha256_bytes_lt (key msg : Bytes) : ∀ b ∈ hmacSha256 key msg, b < 256 := by
  simp only [hmacSha256]
  exact sha256_bytes_lt _

/-- Every byte of a signed token is a dot or a base64url alphabet byte;
in particular no byte is whitespace. -/
theorem mem_signedTokenOf_not_space (secret payload : Bytes) :
    ∀ c ∈ signedTokenOf secret payload, isSpaceB c = false := by
  intro c hc
  by_cases h46 : c = 46
  · subst h46
    rfl
  · have hmem : c ∈ b64encode headerJSON ∨ c ∈ b64encode payload ∨
        c ∈ b64encode (hmacSha256 secret (b64encode headerJSON ++ 46 :: b64encode payload)) := by
      simp only [signedTokenOf, List.mem_append, List.mem_cons] at hc
      tauto
    rcases hmem with hc2 | hc2 | hc2 <;> exact mem_b64encode_not_space _ c hc2

/-- Decoding a token assembled and signed by `signedTokenOf` with the
same secret reaches the claims stage with the unmarshalled payload. -/
theorem decodeClaims_signedTokenOf (secret payload : Bytes) (now : Int)
    (h256 : ∀ b ∈ payload, b < 256) :
    decodeClaims secret now (signedTokenOf secret payload) =
      match unmarshalClaims payload with
      | none => .error .invalidToken
      | some c0 => claimsStage now c0 := by
  have htrim : trimSpaceB (signedTokenOf secret payload) = signedTokenOf secret payload :=
    trimSpaceB_eq_self_of_all _ (mem_signedTokenOf_not_space secret payload)
  have htok : signedTokenOf secret payload =
      b64encode headerJSON ++ 46 :: (b64encode payload ++ 46 ::
        b64encode (hmacSha256 secret (b64encode headerJSON ++ 46 :: b64encode payload))) := by
    simp [signedTokenOf]
  have hsplit : splitOnByte 46 (signedTokenOf secret payload) =
      [b64encode headerJSON, b64encode payload,
       b64encode (hmacSha256 secret (b64encode headerJSON ++ 46 :: b64encode payload))] := by
    rw [htok, splitOnByte_append 46 _ _ (mem_b64encode_ne_dot _),
      splitOnByte_append 46 _ _ (mem_b64encode_ne_dot _),
      splitOnByte_no_sep 46 _ (mem_b64encode_ne_dot _)]
  have hne : signedTokenOf secret payload ≠ [] := by
    rw [htok]
    simp [headerJSON, b64encode]
  rw [decodeClaims]
  simp only [htrim, hne, if_false, hsplit]
  simp [b64decode_encode _ (hmacSha256_bytes_lt secret _), b64decode_encode _ h256]

/-! ## Parsing the issuer-shaped payload symbolically -/

/-- A byte string that round-trips through a JSON string literal without
escaping: no quote, no backslash, no control byte, and within byte range. -/
def jsonSafe (s : Bytes) : Prop := ∀ c ∈ s, c ≠ 34 ∧ c ≠ 92 ∧ 32 ≤ c ∧ c < 256

theorem parseJStringBody_safe (s rest : Bytes) (h : jsonSafe s) :
    parseJStringBody (s ++ 34 :: rest) = some (s, rest) := by
  induction s with
  | nil =>
    rw [List.nil_append, parseJStringBody.eq_def]
    simp only []
    simp
  | cons c t ih =>
    obtain ⟨h34, h92, h32, -⟩ := h c (by simp)
    rw [List.cons_append, parseJStringBody.eq_def]
    simp only []
    rw [if_neg h34, if_neg h92, if_neg (by omega)]
    rw [ih (fun x hx => h x (by simp [hx]))]
    rfl

theorem takeWhile_append_all (p : Nat → Bool) (l1 l2 : Bytes)
    (h1 : ∀ c ∈ l1, p c = true) (h2 : ∀ c, l2.head? = some c → p c = false) :
    (l1 ++ l2).takeWhile p = l1 ∧ (l1 ++ l2).dropWhile p = l2 := by
  induction l1 with
  | nil =>
    simp only [List.nil_append]
    constructor
    · rcases l2 with _ | ⟨a, t⟩
      · simp
      · rw [List.takeWhile_cons, h2 a rfl]
        simp
    · exact dropWhile_eq_self_of_head p l2 h2
  | cons c t ih =>
    obtain ⟨iht, ihd⟩ := ih (fun x hx => h1 x (by simp [hx]))
    have hc := h1 c (by simp)
    constructor
    · rw [List.cons_append, List.takeWhile_cons, hc]
      simp [iht]
    · rw [List.cons_append, List.dropWhile_cons, hc]
      simp [ihd]

/-- The head of `rest` does not continue or qualify a JSON number: not a
digit and not `.`/`e`/`E`. -/
def numBoundary (rest : Bytes) : Prop :=
  ∀ c, rest.head? = some c → isDigitB c = false ∧ c ≠ 46 ∧ c ≠ 101 ∧ c ≠ 69

theorem parseJsonNumCore_natBytes (n : Nat) (rest : Bytes) (hb : numBoundary rest) :
    parseJsonNumCore (natBytes n ++ rest) = some (n, rest) := by
  obtain ⟨ht, hd⟩ := takeWhile_append_all isDigitB (natBytes n) rest
    (fun c hc => by
      have := mem_natBytes n c hc
      simp only [isDigitB, Bool.and_eq_true, decide_eq_true_eq]
      omega)
    (fun c hc => (hb c hc).1)
  rw [parseJsonNumCore]
  simp only [ht, hd, natBytes_ne_nil n, if_false, digitsVal_natBytes n]
  rcases hr : rest with _ | ⟨a, t⟩
  · simp
  · obtain ⟨-, h46, h101, h69⟩ := hb a (by rw [hr]; rfl)
    simp [h46, h101, h69]

theorem intOfNat_eq_cast (n : Nat) : Int.ofNat n = (n : Int) := rfl

theorem parseJsonInt_intBytes (i : Int) (rest : Bytes)
    (hlo : minI64 ≤ i) (hhi : i ≤ maxI64) (hb : numBoundary rest) :
    parseJsonInt (intBytes i ++ rest) = some (i, rest) := by
  rw [minI64] at hlo
  rw [maxI64] at hhi
  by_cases h : i < 0
  · have habs : ((i.natAbs : Nat) : Int) = -i := by omega
    rw [intBytes, if_pos h, List.cons_append, parseJsonInt.eq_def]
    simp only [if_true]
    rw [parseJsonNumCore_natBytes _ rest hb]
    simp only [Option.bind_eq_bind, Option.some_bind]
    try simp only [intOfNat_eq_cast]
    rw [habs, if_pos (by omega : -i ≤ 9223372036854775808)]
    simp
  · have htn : ((i.toNat : Nat) : Int) = i := by omega
    match hnb : natBytes i.toNat with
    | [] => exact absurd hnb (natBytes_ne_nil _)
    | c :: t =>
      have hcm := mem_natBytes i.toNat c (by rw [hnb]; simp)
      rw [intBytes, if_neg h, hnb, List.cons_append, parseJsonInt.eq_def]
      simp only []
      rw [if_neg (by omega : ¬ c = 45), ← List.cons_append, ← hnb,
        parseJsonNumCore_natBytes _ rest hb]
      simp only [Option.bind_eq_bind, Option.some_bind]
      try simp only [intOfNat_eq_cast]
      rw [htn, if_pos (by rw [maxI64]; omega : i ≤ maxI64)]

theorem intBytes_ne_nil (i : Int) : intBytes i ≠ [] := by
  rw [intBytes]
  by_cases h : i < 0
  · simp [h]
  · simp only [h, if_false]
    exact natBytes_ne_nil _

theorem parseJVal_int (i : Int) (rest : Bytes)
    (hlo : minI64 ≤ i) (hhi : i ≤ maxI64) (hb : numBoundary rest) :
    parseJVal (intBytes i ++ rest) = some (.jint i, rest) := by
  have hparse := parseJsonInt_intBytes i rest hlo hhi hb
  rcases hint : intBytes i with _ | ⟨c, t⟩
  · exact absurd hint (intBytes_ne_nil i)
  · have hcm : c = 45 ∨ (48 ≤ c ∧ c ≤ 57) :=
      mem_intBytes i c (by rw [hint]; simp)
    rw [hint, List.cons_append] at hparse
    rw [List.cons_append, parseJVal.eq_def]
    split
    · rename_i heq
      simp only [List.cons.injEq] at heq
      omega
    · rename_i heq
      simp only [List.cons.injEq] at heq
      omega
    · rename_i heq
      simp only [List.cons.injEq] at heq
      omega
    · rename_i heq
      simp only [List.cons.injEq] at heq
      omega
    · rename_i c2 r2 heq
      simp only [List.cons.injEq] at heq
      obtain ⟨h1, h2⟩ := heq
      subst h1
      subst h2
      rw [if_pos (by rcases hcm with hcm | hcm
                     · exact Or.inl hcm
                     · exact Or.inr (by simp only [isDigitB, Bool.and_eq_true,
                         decide_eq_true_eq]; omega))]
      rw [hparse]
      rfl
    · simp at *

theorem parseJVal_str (s rest : Bytes) (hs : jsonSafe s) :
    parseJVal (34 :: (s ++ 34 :: rest)) = some (.jstr s, rest) := by
  rw [parseJVal.eq_def]
  simp only []
  rw [parseJStringBody_safe s rest hs]
  rfl

/-- One
`"key":<int>,"…` member step of `parseFields`. -/
theorem parseFields_int_step (key : Bytes) (hkey : jsonSafe key) (i : Int)
    (hlo : minI64 ≤ i) (hhi : i ≤ maxI64) (more : Bytes) :
    parseFields (34 :: (key ++ 34 :: 58 :: (intBytes i ++ 44 :: 34 :: more))) =
      match parseFields (34 :: more) with
      | none => none
      | some (fs, rf) => some ((key, JVal.jint i) :: fs, rf) := by
  have hstep : ∀ fuel : Nat,
      parseFieldsF (fuel + 1) (34 :: (key ++ 34 :: 58 :: (intBytes i ++ 44 :: 34 :: more))) =
        match parseFieldsF fuel (34 :: more) with
        | none => none
        | some (fs, rf) => some ((key, JVal.jint i) :: fs, rf) := by
    intro fuel
    rw [parseFieldsF.eq_def]
    simp only []
    rw [parseJStringBody_safe key _ hkey]
    simp only []
    rw [parseJVal_int i _ hlo hhi (by intro c hc; simp at hc; subst hc; decide)]
  rw [parseFields, hstep]
  rw [parseFieldsF_congr _ ((34 :: more).length + 1) (34 :: more)
    (by simp [List.length_append]; omega) (by omega)]
  rfl

/-- One `"key":"<string>","…` member step of `parseFields`. -/
theorem parseFields_str_step (key : Bytes) (hkey : jsonSafe key) (s : Bytes)
    (hs : jsonSafe s) (more : Bytes) :
    parseFields (34 :: (key ++ 34 :: 58 :: 34 :: (s ++ 34 :: 44 :: 34 :: more))) =
      match parseFields (34 :: more) with
      | none => none
      | some (fs, rf) => some ((key, JVal.jstr s) :: fs, rf) := by
  have hstep : ∀ fuel : Nat,
      parseFieldsF (fuel + 1) (34 :: (key ++ 34 :: 58 :: 34 :: (s ++ 34 :: 44 :: 34 :: more))) =
        match parseFieldsF fuel (34 :: more) with
        | none => none
        | some (fs, rf) => some ((key, JVal.jstr s) :: fs, rf) := by
    intro fuel
    rw [parseFieldsF.eq_def]
    simp only []
    rw [parseJStringBody_safe key _ hkey]
    simp only []
    rw [parseJVal_str s _ hs]
  rw [parseFields, hstep]
  rw [parseFieldsF_congr _ ((34 :: more).length + 1) (34 :: more)
    (by simp [List.length_append]; omega) (by omega)]
  rfl

/-- The final `"key":<int>}` member step of `parseFields`. -/
theorem parseFields_last_int (key : Bytes) (hkey : jsonSafe key) (i : Int)
    (hlo : minI64 ≤ i) (hhi : i ≤ maxI64) :
    parseFields (34 :: (key ++ 34 :: 58 :: (intBytes i ++ [125]))) =
      some ([(key, JVal.jint i)], []) := by
  rw [parseFields, parseFieldsF.eq_def]
  simp only []
  rw [parseJStringBody_safe key _ hkey]
  simp only []
  rw [parseJVal_int i _ hlo hhi (by intro c hc; simp at hc; subst hc; decide)]

/-- An integer within the `int64` range. -/
def inI64 (i : Int) : Prop := minI64 ≤ i ∧ i ≤ maxI64

/-- Parsing the issuer-shaped payload yields its five members in order. -/
theorem parseTopObject_claims (uid rid iat exp : Int) (sub : Bytes)
    (huid : inI64 uid) (hrid : inI64 rid) (hiat : inI64 iat) (hexp : inI64 exp)
    (hsub : jsonSafe sub) :
    parseTopObject (claimsJSONSub uid rid sub iat exp) =
      some [(keyExp, .jint exp), (keyIat, .jint iat), (keyRid, .jint rid),
            (keySub, .jstr sub), (keyUid, .jint uid)] := by
  rw [claimsJSONSub, parseTopObject.eq_def]
  simp only []
  rw [parseFields_int_step keyExp (by unfold jsonSafe; decide) exp hexp.1 hexp.2,
    parseFields_int_step keyIat (by unfold jsonSafe; decide) iat hiat.1 hiat.2,
    parseFields_int_step keyRid (by unfold jsonSafe; decide) rid hrid.1 hrid.2,
    parseFields_str_step keySub (by unfold jsonSafe; decide) sub hsub,
    parseFields_last_int keyUid (by unfold jsonSafe; decide) uid huid.1 huid.2]
  rfl

/-- Model of `json.Unmarshal` of the issuer-shaped payload fills the claims struct
with exactly the embedded subject id, `sub` string, `iat` and `exp`
(the `restaurant_id` member has no struct field and is ignored). -/
theorem unmarshalClaims_claimsJSONSub (uid rid iat exp : Int) (sub : Bytes)
    (huid : inI64 uid) (hrid : inI64 rid) (hiat : inI64 iat) (hexp : inI64 exp)
    (hsub : jsonSafe sub) :
    unmarshalClaims (claimsJSONSub uid rid sub iat exp) =
      some ⟨uid, sub, iat, exp⟩ := by
  rw [unmarshalClaims, parseTopObject_claims uid rid iat exp sub huid hrid hiat hexp hsub]
  rfl

theorem bytesLT_cons (c : Nat) (l : Bytes) (hc : c < 256)
    (hl : ∀ b ∈ l, b < 256) : ∀ b ∈ c :: l, b < 256 := by
  intro b hb
  rcases hb with _ | hb
  · exact hc
  · exact hl b (by assumption)

theorem bytesLT_append (l1 l2 : Bytes) (h1 : ∀ b ∈ l1, b < 256)
    (h2 : ∀ b ∈ l2, b < 256) : ∀ b ∈ l1 ++ l2, b < 256 := by
  intro b hb
  rcases List.mem_append.mp hb with hb | hb
  · exact h1 b hb
  · exact h2 b hb

theorem jsonSafe_intBytes (i : Int) : jsonSafe (intBytes i) := by
  intro c hc
  rcases mem_intBytes i c hc with h | h <;> omega

theorem claimsJSONSub_lt256 (uid rid iat exp : Int) (sub : Bytes)
    (hsub : jsonSafe sub) : ∀ b ∈ claimsJSONSub uid rid sub iat exp, b < 256 := by
  have hsub' : ∀ b ∈ sub, b < 256 := fun b hb => (hsub b hb).2.2.2
  rw [claimsJSONSub]
  repeat
    first
    | apply bytesLT_cons _ _ (by omega)
    | apply bytesLT_append
    | exact intBytes_lt _
    | exact hsub'
    | exact fun b hb => by simp at hb

/-- Decoding a correctly-signed issuer-shaped token reduces to the claims
stage on exactly the embedded claims. -/
theorem decodeClaims_issuer (secret : Bytes) (uid rid iat exp now : Int) (sub : Bytes)
    (huid : inI64 uid) (hrid : inI64 rid) (hiat : inI64 iat) (hexp : inI64 exp)
    (hsub : jsonSafe sub) :
    decodeClaims secret now (signedTokenOf secret (claimsJSONSub uid rid sub iat exp)) =
      claimsStage now ⟨uid, sub, iat, exp⟩ := by
  rw [decodeClaims_signedTokenOf secret _ now (claimsJSONSub_lt256 uid rid iat exp sub hsub)]
  rw [unmarshalClaims_claimsJSONSub uid rid iat exp sub huid hrid hiat hexp hsub]

/-- Full case analysis of the claims stage: the effective subject id is
the primary `user_id` when nonzero, else the parsed `sub` (0 on a failed
parse); a zero effective subject is rejected, then the expiry check. -/
theorem claimsStage_eval (now uid iat exp : Int) (sub : Bytes) :
    claimsStage now ⟨uid, sub, iat, exp⟩ =
      (let effUid := if uid = 0 then
          (match goParseInt sub with | some v => v | none => 0) else uid
       if effUid = 0 then .error .invalidToken
       else if exp ≠ 0 ∧ now > exp then .error .tokenExpired
       else .ok ⟨effUid, sub, iat, exp⟩) := by
  simp only [claimsStage]
  by_cases h0 : uid = 0
  · subst h0
    by_cases hsubnil : sub = []
    · subst hsubnil
      simp [goParseInt]
    · rcases hp : goParseInt sub with _ | v
      · simp [hsubnil, hp]
      · by_cases hv : v = 0
        · subst hv
          simp [hsubnil, hp]
        · simp [hsubnil, hp, hv]
  · simp [h0]

/-- C5: a correctly-signed issuer-shaped token is rejected as expired
exactly when its `exp` claim is nonzero and the decode-time clock
strictly exceeds it; in particular `exp = 0` is treated as
never-expiring and accepted at every decode time (the code collapses
the token-layer `Expired` into `ErrTokenExpired`). -/
theorem c5_expiry_semantics (secret : Bytes) (uid rid iat exp now : Int)
    (huid : uid ≠ 0) (h1 : inI64 uid) (h2 : inI64 rid) (h3 : inI64 iat) (h4 : inI64 exp) :
    decodeClaims secret now (signedTokenOf secret (claimsJSON uid rid iat exp)) =
      if exp ≠ 0 ∧ now > exp then .error .tokenExpired
      else .ok ⟨uid, intBytes uid, iat, exp⟩ := by
  rw [claimsJSON, decodeClaims_issuer secret uid rid iat exp now (intBytes uid)
    h1 h2 h3 h4 (jsonSafe_intBytes uid), claimsStage_eval]
  simp [huid]

/-- Witness for C5 at the boundary: with `now = 2000`, a token with
`exp = 1999 = now - 1` fails as expired, `exp = 2001 = now + 1`
succeeds, and `exp = 0` (issued at `iat = -900` with the 900-second
TTL) is accepted. -/
theorem c5_expiry_semantics_witness :
    decodeClaims changeMeBytes 2000 (signedTokenOf changeMeBytes (claimsJSON 1 1 1000 1999)) =
      .error .tokenExpired ∧
    decodeClaims changeMeBytes 2000 (signedTokenOf changeMeBytes (claimsJSON 1 1 1000 2001)) =
      .ok ⟨1, [49], 1000, 2001⟩ ∧
    decodeClaims changeMeBytes 2000 (signedTokenOf changeMeBytes (claimsJSON 1 1 (-900) 0)) =
      .ok ⟨1, [49], -900, 0⟩ :=
  ⟨(c5_expiry_semantics changeMeBytes 1 1 1000 1999 2000 (by decide)
      ⟨by decide, by decide⟩ ⟨by decide, by decide⟩ ⟨by decide, by decide⟩
      ⟨by decide, by decide⟩).trans (by decide),
   (c5_expiry_semantics changeMeBytes 1 1 1000 2001 2000 (by decide)
      ⟨by decide, by decide⟩ ⟨by decide, by decide⟩ ⟨by decide, by decide⟩
      ⟨by decide, by decide⟩).trans (by decide),
   (c5_expiry_semantics changeMeBytes 1 1 (-900) 0 2000 (by decide)
      ⟨by decide, by decide⟩ ⟨by decide, by decide⟩ ⟨by decide, by decide⟩
      ⟨by decide, by decide⟩).trans (by decide)⟩

/-- C4: round-trip. For every user record with a nonzero id (and fields
within `int64` range), `generateToken` succeeds and produces the signed
token over the claims `{user_id, restaurant_id, sub, iat = now,
exp = now + TTL}`; decoding that token with the same secret at any time
before the expiry returns exactly the issued subject id, `sub` mirror,
`iat` and `exp`; and the full `ValidateAccessToken` on a store holding
that record returns the record itself, so the principal also carries
the issued tenant id. -/
theorem c4_roundtrip (cfg : UserServiceCfg) (store : Int → Option GoUser) (u : GoUser)
    (tnow now : Int) (hsecret : cfg.tokenSecret ≠ [])
    (huid : u.id ≠ 0) (h1 : inI64 u.id) (h2 : inI64 u.restaurantID)
    (h3 : inI64 tnow) (h4 : inI64 (tnow + cfg.tokenTTL))
    (hfresh : now < tnow + cfg.tokenTTL) (hstore : store u.id = some u) :
    generateToken cfg u tnow =
      .ok (signedTokenOf cfg.tokenSecret
        (claimsJSON u.id u.restaurantID tnow (tnow + cfg.tokenTTL))) ∧
    decodeClaims cfg.tokenSecret now
        (signedTokenOf cfg.tokenSecret (claimsJSON u.id u.restaurantID tnow (tnow + cfg.tokenTTL))) =
      .ok ⟨u.id, intBytes u.id, tnow, tnow + cfg.tokenTTL⟩ ∧
    validateAccessToken cfg store now
        (signedTokenOf cfg.tokenSecret (claimsJSON u.id u.restaurantID tnow (tnow + cfg.tokenTTL))) =
      .ok u := by
  have hdec : decodeClaims cfg.tokenSecret now
      (signedTokenOf cfg.tokenSecret (claimsJSON u.id u.restaurantID tnow (tnow + cfg.tokenTTL))) =
      .ok ⟨u.id, intBytes u.id, tnow, tnow + cfg.tokenTTL⟩ := by
    rw [claimsJSON, decodeClaims_issuer cfg.tokenSecret u.id u.restaurantID tnow
      (tnow + cfg.tokenTTL) now (intBytes u.id) h1 h2 h3 h4 (jsonSafe_intBytes u.id),
      claimsStage_eval]
    simp only [huid, if_false]
    rw [if_neg (by omega : ¬(tnow + cfg.tokenTTL ≠ 0 ∧ now > tnow + cfg.tokenTTL))]
  refine ⟨?_, hdec, ?_⟩
  · rw [generateToken, if_neg hsecret]
  · rw [validateAccessToken, hdec]
    simp only []
    rw [hstore]

/-- C6: subject fallback. For every correctly-signed issuer-shaped
payload, when the `user_id` member is zero the decoder falls back to
`strconv.ParseInt` on the `sub` string; a missing or unparseable or
zero result is rejected (the code surfaces `MissingSubject` as
`ErrInvalidToken`), otherwise the fallback value becomes the subject
id; a nonzero `user_id` takes precedence. -/
theorem c6_subject_fallback (secret : Bytes) (uid rid iat exp now : Int) (sub : Bytes)
    (h1 : inI64 uid) (h2 : inI64 rid) (h3 : inI64 iat) (h4 : inI64 exp)
    (hsub : jsonSafe sub) :
    decodeClaims secret now (signedTokenOf secret (claimsJSONSub uid rid sub iat exp)) =
      (let effUid := if uid = 0 then
          (match goParseInt sub with | some v => v | none => 0) else uid
       if effUid = 0 then .error .invalidToken
       else if exp ≠ 0 ∧ now > exp then .error .tokenExpired
       else .ok ⟨effUid, sub, iat, exp⟩) := by
  rw [decodeClaims_issuer secret uid rid iat exp now sub h1 h2 h3 h4 hsub,
    claimsStage_eval]

/-- Witness for C6: with `user_id = 0`, `sub = "42"` yields subject 42,
`sub = "0"` and `sub = "x"` are rejected as invalid, and a nonzero
`user_id = 7` wins over `sub = "42"`. -/
theorem c6_subject_fallback_witness :
    decodeClaims changeMeBytes 5 (signedTokenOf changeMeBytes (claimsJSONSub 0 1 [52, 50] 1 0)) =
      .ok ⟨42, [52, 50], 1, 0⟩ ∧
    decodeClaims changeMeBytes 5 (signedTokenOf changeMeBytes (claimsJSONSub 0 1 [48] 1 0)) =
      .error .invalidToken ∧
    decodeClaims changeMeBytes 5 (signedTokenOf changeMeBytes (claimsJSONSub 0 1 [120] 1 0)) =
      .error .invalidToken ∧
    decodeClaims changeMeBytes 5 (signedTokenOf changeMeBytes (claimsJSONSub 7 1 [52, 50] 1 0)) =
      .ok ⟨7, [52, 50], 1, 0⟩ :=
  ⟨(c6_subject_fallback changeMeBytes 0 1 1 0 5 [52, 50] ⟨by decide, by decide⟩
      ⟨by decide, by decide⟩ ⟨by decide, by decide⟩ ⟨by decide, by decide⟩
      (by unfold jsonSafe; decide)).trans (by decide),
   (c6_subject_fallback changeMeBytes 0 1 1 0 5 [48] ⟨by decide, by decide⟩
      ⟨by decide, by decide⟩ ⟨by decide, by decide⟩ ⟨by decide, by decide⟩
      (by unfold jsonSafe; decide)).trans (by decide),
   (c6_subject_fallback changeMeBytes 0 1 1 0 5 [120] ⟨by decide, by decide⟩
      ⟨by decide, by decide⟩ ⟨by decide, by decide⟩ ⟨by decide, by decide⟩
      (by unfold jsonSafe; decide)).trans (by decide),
   (c6_subject_fallback changeMeBytes 7 1 1 0 5 [52, 50] ⟨by decide, by decide⟩
      ⟨by decide, by decide⟩ ⟨by decide, by decide⟩ ⟨by decide, by decide⟩
      (by unfold jsonSafe; decide)).trans (by decide)⟩

/-- C7: the tenant on the returned principal is the account record's,
not the token's. Two tokens for the same subject whose payloads embed
different `restaurant_id` values both authenticate to the stored user
record `u`, whose `restaurantID` is whatever the account says —
independent of `rid1` and `rid2`. -/
theorem c7_authoritative_tenant (cfg : UserServiceCfg) (store : Int → Option GoUser)
    (uid rid1 rid2 iat exp now : Int) (u : GoUser)
    (huid : uid ≠ 0) (h1 : inI64 uid) (hr1 : inI64 rid1) (hr2 : inI64 rid2)
    (h3 : inI64 iat) (h4 : inI64 exp)
    (hfresh : ¬(exp ≠ 0 ∧ now > exp)) (hstore : store uid = some u) :
    validateAccessToken cfg store now
        (signedTokenOf cfg.tokenSecret (claimsJSON uid rid1 iat exp)) = .ok u ∧
    validateAccessToken cfg store now
        (signedTokenOf cfg.tokenSecret (claimsJSON uid rid2 iat exp)) = .ok u := by
  have key : ∀ rid : Int, inI64 rid → validateAccessToken cfg store now
      (signedTokenOf cfg.tokenSecret (claimsJSON uid rid iat exp)) = .ok u := by
    intro rid hr
    rw [validateAccessToken, claimsJSON, decodeClaims_issuer cfg.tokenSecret uid rid iat exp
      now (intBytes uid) h1 hr h3 h4 (jsonSafe_intBytes uid), claimsStage_eval]
    simp only [huid, if_false, hfresh]
    rw [hstore]
  exact ⟨key rid1 hr1, key rid2 hr2⟩

/-- Witness for C4 at a concrete configuration, user and clock. -/
theorem c4_roundtrip_witness :
    generateToken (newUser [] 0) ⟨1, 1⟩ 1700000001 =
      .ok (signedTokenOf (newUser [] 0).tokenSecret
        (claimsJSON 1 1 1700000001 (1700000001 + (newUser [] 0).tokenTTL))) ∧
    decodeClaims (newUser [] 0).tokenSecret 1700000500
        (signedTokenOf (newUser [] 0).tokenSecret
          (claimsJSON 1 1 1700000001 (1700000001 + (newUser [] 0).tokenTTL))) =
      .ok ⟨1, intBytes 1, 1700000001, 1700000001 + (newUser [] 0).tokenTTL⟩ ∧
    validateAccessToken (newUser [] 0) (fun i => if i = 1 then some ⟨1, 1⟩ else none)
        1700000500
        (signedTokenOf (newUser [] 0).tokenSecret
          (claimsJSON 1 1 1700000001 (1700000001 + (newUser [] 0).tokenTTL))) =
      .ok ⟨1, 1⟩ :=
  c4_roundtrip (newUser [] 0) (fun i => if i = 1 then some ⟨1, 1⟩ else none) ⟨1, 1⟩
    1700000001 1700000500 (by decide) (by decide) ⟨by decide, by decide⟩
    ⟨by decide, by decide⟩ ⟨by decide, by decide⟩ ⟨by decide, by decide⟩
    (by decide) (by decide)

/-- Witness for C7: tokens embedding tenant 5 and tenant 9 for subject 1
both yield the stored principal, whose tenant is the account's value 3. -/
theorem c7_authoritative_tenant_witness :
    validateAccessToken (newUser [] 0) (fun i => if i = 1 then some ⟨1, 3⟩ else none) 99
        (signedTokenOf (newUser [] 0).tokenSecret (claimsJSON 1 5 1 0)) = .ok ⟨1, 3⟩ ∧
    validateAccessToken (newUser [] 0) (fun i => if i = 1 then some ⟨1, 3⟩ else none) 99
        (signedTokenOf (newUser [] 0).tokenSecret (claimsJSON 1 9 1 0)) = .ok ⟨1, 3⟩ :=
  c7_authoritative_tenant (newUser [] 0) (fun i => if i = 1 then some ⟨1, 3⟩ else none)
    1 5 9 1 0 99 ⟨1, 3⟩ (by decide) ⟨by decide, by decide⟩ ⟨by decide, by decide⟩
    ⟨by decide, by decide⟩ ⟨by decide, by decide⟩ ⟨by decide, by decide⟩
    (by decide) (by decide)

/-- C8: the guard's error collapse. (1) The only errors
`ValidateAccessToken` can return on its own path are `ErrInvalidToken`
and `ErrTokenExpired`; (2) a token that decodes but whose subject has no
account collapses to `ErrInvalidToken`; (3) a token-layer `Expired` is
surfaced distinctly as `ErrTokenExpired`; (4) every other token-layer
failure (bad signature, malformed token, missing subject — all reported
as the invalid-token error by the decode stage) is surfaced as
`ErrInvalidToken`. -/
theorem c8_error_collapse :
    (∀ (cfg : UserServiceCfg) (store : Int → Option GoUser) (now : Int) (token : Bytes)
       (e : AuthErr), validateAccessToken cfg store now token = .error e →
         e = .invalidToken ∨ e = .tokenExpired) ∧
    (∀ (cfg : UserServiceCfg) (store : Int → Option GoUser) (now : Int) (token : Bytes)
       (c : TokenClaims), decodeClaims cfg.tokenSecret now token = .ok c →
         store c.userID = none →
         validateAccessToken cfg store now token = .error .invalidToken) ∧
    (∀ (cfg : UserServiceCfg) (store : Int → Option GoUser) (now : Int) (token : Bytes),
       decodeClaims cfg.tokenSecret now token = .error .tokenExpired →
         validateAccessToken cfg store now token = .error .tokenExpired) ∧
    (∀ (cfg : UserServiceCfg) (store : Int → Option GoUser) (now : Int) (token : Bytes),
       decodeClaims cfg.tokenSecret now token = .error .invalidToken →
         validateAccessToken cfg store now token = .error .invalidToken) := by
  refine ⟨?_, ?_, ?_, ?_⟩
  · intro cfg store now token e h
    rw [validateAccessToken] at h
    rcases hd : decodeClaims cfg.tokenSecret now token with e2 | c <;>
      rw [hd] at h <;> try simp only [] at h
    · simp only [Except.error.injEq] at h
      subst h
      rcases e2 <;> simp
    · rcases hs : store c.userID with _ | u <;> rw [hs] at h <;> try simp only [] at h
      · simp only [Except.error.injEq] at h
        subst h
        simp
      · simp at h
  · intro cfg store now token c hd hs
    rw [validateAccessToken, hd]
    simp only []
    rw [hs]
  · intro cfg store now token hd
    rw [validateAccessToken, hd]
  · intro cfg store now token hd
    rw [validateAccessToken, hd]

/-- Witness for C8: the empty token fails the decode stage and the guard
reports `ErrInvalidToken`; a well-signed token for an absent subject
also collapses to `ErrInvalidToken`; an expired one surfaces as
`ErrTokenExpired`. -/
theorem c8_error_collapse_witness :
    validateAccessToken (newUser [] 0) (fun _ => none) 0 [] = .error .invalidToken ∧
    validateAccessToken (newUser [] 0) (fun _ => none) 5
        (signedTokenOf (newUser [] 0).tokenSecret (claimsJSON 1 1 1 0)) =
      .error .invalidToken ∧
    validateAccessToken (newUser [] 0) (fun _ => none) 99
        (signedTokenOf (newUser [] 0).tokenSecret (claimsJSON 1 1 1 9)) =
      .error .tokenExpired := by
  refine ⟨?_, ?_, ?_⟩
  · exact c8_error_collapse.2.2.2 (newUser [] 0) (fun _ => none) 0 [] (by decide)
  · refine c8_error_collapse.2.1 (newUser [] 0) (fun _ => none) 5 _ ⟨1, intBytes 1, 1, 0⟩ ?_ rfl
    rw [claimsJSON, decodeClaims_issuer _ 1 1 1 0 5 (intBytes 1) ⟨by decide, by decide⟩
      ⟨by decide, by decide⟩ ⟨by decide, by decide⟩ ⟨by decide, by decide⟩
      (jsonSafe_intBytes 1), claimsStage_eval]
    decide
  · refine c8_error_collapse.2.2.1 (newUser [] 0) (fun _ => none) 99 _ ?_
    rw [claimsJSON, decodeClaims_issuer _ 1 1 1 9 99 (intBytes 1) ⟨by decide, by decide⟩
      ⟨by decide, by decide⟩ ⟨by decide, by decide⟩ ⟨by decide, by decide⟩
      (jsonSafe_intBytes 1), claimsStage_eval]
    decide

/-- C10: `NewUser` defaulting makes issuance total. For every
configuration input, the stored secret is nonempty (an empty secret is
replaced by `change-me`), the TTL is positive (a non-positive TTL is
replaced by the 15-minute default), and `generateToken` on the
constructed service never reaches its empty-secret error branch: every
call returns a token. -/
theorem c10_constructor_totality (secret : Bytes) (ttl : Int) (u : GoUser) (now : Int) :
    (newUser secret ttl).tokenSecret ≠ [] ∧
    0 < (newUser secret ttl).tokenTTL ∧
    generateToken (newUser secret ttl) u now =
      .ok (signedTokenOf (newUser secret ttl).tokenSecret
        (claimsJSON u.id u.restaurantID now (now + (newUser secret ttl).tokenTTL))) := by
  have hsec : (newUser secret ttl).tokenSecret ≠ [] := by
    rw [newUser]
    by_cases h : secret = []
    · simp only [h, if_true]
      decide
    · simp only [h, if_false]
      exact h
  refine ⟨hsec, ?_, ?_⟩
  · rw [newUser]
    by_cases h : ttl ≤ 0
    · simp only [h, if_true]
      decide
    · simp only [h, if_false]
      omega
  · rw [generateToken, if_neg hsec]

/-! ## Handler support lemmas -/

theorem isPrefixOf_append_self (pre x : Bytes) : pre.isPrefixOf (pre ++ x) = true := by
  induction pre with
  | nil => simp [List.isPrefixOf]
  | cons a t ih => simp [List.isPrefixOf, ih]

theorem trimSpaceB_bearer (token : Bytes) (hne : token ≠ [])
    (hsp : ∀ c ∈ token, isSpaceB c = false) :
    trimSpaceB (bearerBytes ++ token) = bearerBytes ++ token := by
  refine trimSpaceB_eq_self _ ?_ ?_
  · intro c hc
    simp only [bearerBytes, List.cons_append, List.head?_cons, Option.some.injEq] at hc
    subst hc
    rfl
  · intro c hc
    rw [List.reverse_append] at hc
    rcases hr : token.reverse with _ | ⟨a, t⟩
    · exact absurd (by simpa using congrArg List.reverse hr) hne
    · rw [hr, List.cons_append, List.head?_cons] at hc
      simp only [Option.some.injEq] at hc
      subst hc
      refine hsp a ?_
      have : a ∈ token.reverse := by
        rw [hr]
        simp
      simpa using this

/-- Tokens produced by `signedTokenOf` are nonempty. -/
theorem signedTokenOf_ne_nil (secret payload : Bytes) : signedTokenOf secret payload ≠ [] := by
  rw [signedTokenOf]
  simp [headerJSON, b64encode]

/-- The fetch flag of the bypassing handler's final stage is `true` in
every branch of the data-fetch match. -/
theorem orderBAC_fetch_flag (env : HandlerEnv) (rid : Int) :
    ((match getOrdersByRestaurant env.restaurantExists env.getName env.listOrders rid with
      | .error .invalidRestaurantID => ((.failure 400 "invalid restaurant id" : HttpOut), true)
      | .error .restaurantNotFound => (.failure 404 "restaurant not found", true)
      | .error _ => (.failure 500 "internal server error", true)
      | .ok (orders, name) => (.success orders name, true)) : HttpOut × Bool).2 = true := by
  rcases getOrdersByRestaurant env.restaurantExists env.getName env.listOrders rid with e | ⟨o, n⟩
  · rcases e <;> rfl
  · rfl

/-- The 401 message each guard error maps to, identical in both handlers. -/
def authErrMsg : AuthErr → String
  | .invalidToken => "invalid token"
  | .tokenExpired => "token expired"

set_option maxHeartbeats 1600000 in
/-- Reduction of the bypassing handler on a well-formed GET request with
a bearer header: it validates the credential and goes straight to the
data fetch — no tenant comparison anywhere. -/
theorem orderBACHandler_run (env : HandlerEnv) (path token : Bytes) (T : Int)
    (hpath : extractRestaurantID orderBacPathPre path = some T)
    (hne : token ≠ []) (hsp : ∀ c ∈ token, isSpaceB c = false) :
    orderBACHandler env ⟨"GET", path, bearerBytes ++ token⟩ =
      match validateAccessToken env.cfg env.store env.now token with
      | .error e => (.failure 401 (authErrMsg e), false)
      | .ok _ =>
          match getOrdersByRestaurant env.restaurantExists env.getName env.listOrders T with
          | .error .invalidRestaurantID => (.failure 400 "invalid restaurant id", true)
          | .error .restaurantNotFound => (.failure 404 "restaurant not found", true)
          | .error _ => (.failure 500 "internal server error", true)
          | .ok (orders, name) => (.success orders name, true) := by
  rw [orderBACHandler]
  simp only []
  rw [if_neg (by simp)]
  rw [hpath]
  simp only []
  rw [trimSpaceB_bearer token hne hsp]
  rw [if_neg (by
    rw [not_or]
    constructor
    · simp [bearerBytes]
    · rw [isPrefixOf_append_self]
      simp)]
  rw [List.drop_left, trimSpaceB_eq_self_of_all token hsp]
  rcases validateAccessToken env.cfg env.store env.now token with e | u
  · rcases e <;> rfl
  · rfl

set_option maxHeartbeats 1600000 in
/-- Reduction of the enforcing handler on a well-formed GET request with
a bearer header: it validates the credential, applies the ownership
check, and only then fetches. -/
theorem orderDetailHandler_run (env : HandlerEnv) (path token : Bytes) (T : Int)
    (hpath : extractRestaurantID orderPathPre path = some T)
    (hne : token ≠ []) (hsp : ∀ c ∈ token, isSpaceB c = false) :
    orderDetailHandler env ⟨"GET", path, bearerBytes ++ token⟩ =
      match validateAccessToken env.cfg env.store env.now token with
      | .error e => (.failure 401 (authErrMsg e), false)
      | .ok user =>
          if user.restaurantID ≠ 0 ∧ user.restaurantID ≠ T then
            (.failure 403 "order data does not belong to your restaurant", false)
          else
            match getOrdersByRestaurant env.restaurantExists env.getName env.listOrders T with
            | .error .invalidRestaurantID => (.failure 403 "restaurant not linked to user", true)
            | .error .restaurantNotFound => (.failure 404 "restaurant not found", true)
            | .error _ => (.failure 500 "internal server error", true)
            | .ok (orders, name) => (.success orders name, true) := by
  rw [orderDetailHandler]
  simp only []
  rw [if_neg (by simp)]
  rw [hpath]
  simp only []
  rw [trimSpaceB_bearer token hne hsp]
  rw [if_neg (by
    rw [not_or]
    constructor
    · simp [bearerBytes]
    · rw [isPrefixOf_append_self]
      simp)]
  rw [List.drop_left, trimSpaceB_eq_self_of_all token hsp]
  rcases validateAccessToken env.cfg env.store env.now token with e | u
  · rcases e <;> rfl
  · rfl

/-- The fetch flag of the enforcing handler's final stage is `true` in
every branch of the data-fetch match. -/
theorem orderDetail_fetch_flag (env : HandlerEnv) (rid : Int) :
    ((match getOrdersByRestaurant env.restaurantExists env.getName env.listOrders rid with
      | .error .invalidRestaurantID => ((.failure 403 "restaurant not linked to user" : HttpOut), true)
      | .error .restaurantNotFound => (.failure 404 "restaurant not found", true)
      | .error _ => (.failure 500 "internal server error", true)
      | .ok (orders, name) => (.success orders name, true)) : HttpOut × Bool).2 = true := by
  rcases getOrdersByRestaurant env.restaurantExists env.getName env.listOrders rid with e | ⟨o, n⟩
  · rcases e <;> rfl
  · rfl

/-- C1: the enforcing listing variant. For an authenticated principal
`u` and requested tenant `T`, the data fetch is reached if and only if
`u.restaurantID = 0 ∨ u.restaurantID = T`; on a mismatch the handler
answers 403 Forbidden and the fetch flag stays `false`, i.e. no order
data is fetched; a principal with tenant id 0 always reaches the fetch. -/
theorem c1_enforcing_tenant_check (env : HandlerEnv) (path token : Bytes) (T : Int)
    (u : GoUser)
    (hpath : extractRestaurantID orderPathPre path = some T)
    (htok : validateAccessToken env.cfg env.store env.now token = .ok u)
    (hne : token ≠ []) (hsp : ∀ c ∈ token, isSpaceB c = false) :
    ((orderDetailHandler env ⟨"GET", path, bearerBytes ++ token⟩).2 = true ↔
      (u.restaurantID = 0 ∨ u.restaurantID = T)) ∧
    (u.restaurantID ≠ 0 ∧ u.restaurantID ≠ T →
      orderDetailHandler env ⟨"GET", path, bearerBytes ++ token⟩ =
        (.failure 403 "order data does not belong to your restaurant", false)) := by
  have hrun := orderDetailHandler_run env path token T hpath hne hsp
  rw [hrun, htok]
  simp only []
  by_cases hm : u.restaurantID ≠ 0 ∧ u.restaurantID ≠ T
  · rw [if_pos hm]
    refine ⟨⟨fun hft => absurd hft (by simp), fun hor => absurd hor (by tauto)⟩, fun _ => rfl⟩
  · rw [if_neg hm]
    refine ⟨⟨fun _ => by tauto, fun _ => orderDetail_fetch_flag env T⟩, fun hc => absurd hc hm⟩

/-- C2: the bypassing listing variant performs no tenant comparison —
every authenticated principal reaches the data fetch for any requested
tenant — while an invalid or expired credential is rejected by both
variants with the same 401 body and with the fetch flag `false`. -/
theorem c2_bypassing_uniform (env : HandlerEnv) (pathB pathD token : Bytes) (tB tD : Int)
    (hpathB : extractRestaurantID orderBacPathPre pathB = some tB)
    (hpathD : extractRestaurantID orderPathPre pathD = some tD)
    (hne : token ≠ []) (hsp : ∀ c ∈ token, isSpaceB c = false) :
    (∀ u : GoUser, validateAccessToken env.cfg env.store env.now token = .ok u →
      (orderBACHandler env ⟨"GET", pathB, bearerBytes ++ token⟩).2 = true) ∧
    (∀ e : AuthErr, validateAccessToken env.cfg env.store env.now token = .error e →
      orderBACHandler env ⟨"GET", pathB, bearerBytes ++ token⟩ =
        (.failure 401 (authErrMsg e), false) ∧
      orderDetailHandler env ⟨"GET", pathD, bearerBytes ++ token⟩ =
        (.failure 401 (authErrMsg e), false)) := by
  have hrunB := orderBACHandler_run env pathB token tB hpathB hne hsp
  have hrunD := orderDetailHandler_run env pathD token tD hpathD hne hsp
  constructor
  · intro u htok
    rw [hrunB, htok]
    exact orderBAC_fetch_flag env tB
  · intro e htok
    rw [hrunB, hrunD, htok]
    exact ⟨rfl, rfl⟩

/-! ## Concrete fixtures used by handler witnesses -/

/-- A store with subject 1 in tenant 3 and subject 2 not yet linked to a
tenant (tenant id 0). -/
def wStore : Int → Option GoUser :=
  fun i => if i = 1 then some ⟨1, 3⟩ else if i = 2 then some ⟨2, 0⟩ else none

def wEnv : HandlerEnv :=
  ⟨newUser [] 0, wStore, 99, fun _ => true, fun _ => some ("Bistro"), fun _ => []⟩

/-- A valid token for subject 1 (account tenant 3), never expiring. -/
def wToken : Bytes := signedTokenOf (newUser [] 0).tokenSecret (claimsJSON 1 3 1 0)

/-- A valid token for the unscoped subject 2 (tenant id 0). -/
def wToken0 : Bytes := signedTokenOf (newUser [] 0).tokenSecret (claimsJSON 2 0 1 0)

/-- A correctly-signed token for subject 1 that expired at time 9. -/
def wTokenExp : Bytes := signedTokenOf (newUser [] 0).tokenSecret (claimsJSON 1 3 1 9)

def wPathD3 : Bytes := orderPathPre ++ [51]

def wPathD5 : Bytes := orderPathPre ++ [53]

def wPathB5 : Bytes := orderBacPathPre ++ [53]

theorem wToken_valid : validateAccessToken wEnv.cfg wEnv.store wEnv.now wToken = .ok ⟨1, 3⟩ := by
  rw [wToken, validateAccessToken]
  rw [show (newUser [] 0).tokenSecret = wEnv.cfg.tokenSecret from rfl]
  rw [claimsJSON, decodeClaims_issuer wEnv.cfg.tokenSecret 1 3 1 0 wEnv.now (intBytes 1)
    ⟨by decide, by decide⟩ ⟨by decide, by decide⟩ ⟨by decide, by decide⟩
    ⟨by decide, by decide⟩ (jsonSafe_intBytes 1), claimsStage_eval]
  decide

theorem wToken0_valid : validateAccessToken wEnv.cfg wEnv.store wEnv.now wToken0 = .ok ⟨2, 0⟩ := by
  rw [wToken0, validateAccessToken]
  rw [show (newUser [] 0).tokenSecret = wEnv.cfg.tokenSecret from rfl]
  rw [claimsJSON, decodeClaims_issuer wEnv.cfg.tokenSecret 2 0 1 0 wEnv.now (intBytes 2)
    ⟨by decide, by decide⟩ ⟨by decide, by decide⟩ ⟨by decide, by decide⟩
    ⟨by decide, by decide⟩ (jsonSafe_intBytes 2), claimsStage_eval]
  decide

theorem wTokenExp_expired :
    validateAccessToken wEnv.cfg wEnv.store wEnv.now wTokenExp = .error .tokenExpired := by
  rw [wTokenExp, validateAccessToken]
  rw [show (newUser [] 0).tokenSecret = wEnv.cfg.tokenSecret from rfl]
  rw [claimsJSON, decodeClaims_issuer wEnv.cfg.tokenSecret 1 3 1 9 wEnv.now (intBytes 1)
    ⟨by decide, by decide⟩ ⟨by decide, by decide⟩ ⟨by decide, by decide⟩
    ⟨by decide, by decide⟩ (jsonSafe_intBytes 1), claimsStage_eval]
  decide

/-- Witness for C1: subject 1 (tenant 3) requesting tenant 5 is refused
with 403 and no fetch; requesting its own tenant 3 reaches the fetch;
the unscoped subject 2 (tenant 0) reaches the fetch for tenant 5. -/
theorem c1_enforcing_tenant_check_witness :
    orderDetailHandler wEnv ⟨"GET", wPathD5, bearerBytes ++ wToken⟩ =
      (.failure 403 ("order data does not belong to your restaurant"), false) ∧
    (orderDetailHandler wEnv ⟨"GET", wPathD3, bearerBytes ++ wToken⟩).2 = true ∧
    (orderDetailHandler wEnv ⟨"GET", wPathD5, bearerBytes ++ wToken0⟩).2 = true :=
  ⟨(c1_enforcing_tenant_check wEnv wPathD5 wToken 5 ⟨1, 3⟩ (by decide) wToken_valid
      (signedTokenOf_ne_nil _ _) (mem_signedTokenOf_not_space _ _)).2 (by decide),
   (c1_enforcing_tenant_check wEnv wPathD3 wToken 3 ⟨1, 3⟩ (by decide) wToken_valid
      (signedTokenOf_ne_nil _ _) (mem_signedTokenOf_not_space _ _)).1.mpr (by decide),
   (c1_enforcing_tenant_check wEnv wPathD5 wToken0 5 ⟨2, 0⟩ (by decide) wToken0_valid
      (signedTokenOf_ne_nil _ _) (mem_signedTokenOf_not_space _ _)).1.mpr (by decide)⟩

/-- Witness for C2: subject 1 (tenant 3) lists tenant 5's orders through
the bypassing route (fetch reached), while the expired token is refused
by both routes with the same 401 "token expired" body and no fetch. -/
theorem c2_bypassing_uniform_witness :
    (orderBACHandler wEnv ⟨"GET", wPathB5, bearerBytes ++ wToken⟩).2 = true ∧
    orderBACHandler wEnv ⟨"GET", wPathB5, bearerBytes ++ wTokenExp⟩ =
      (.failure 401 (authErrMsg .tokenExpired), false) ∧
    orderDetailHandler wEnv ⟨"GET", wPathD5, bearerBytes ++ wTokenExp⟩ =
      (.failure 401 (authErrMsg .tokenExpired), false) :=
  ⟨(c2_bypassing_uniform wEnv wPathB5 wPathD5 wToken 5 5 (by decide) (by decide)
      (signedTokenOf_ne_nil _ _) (mem_signedTokenOf_not_space _ _)).1 ⟨1, 3⟩ wToken_valid,
   ((c2_bypassing_uniform wEnv wPathB5 wPathD5 wTokenExp 5 5 (by decide) (by decide)
      (signedTokenOf_ne_nil _ _) (mem_signedTokenOf_not_space _ _)).2 .tokenExpired
      wTokenExp_expired).1,
   ((c2_bypassing_uniform wEnv wPathB5 wPathD5 wTokenExp 5 5 (by decide) (by decide)
      (signedTokenOf_ne_nil _ _) (mem_signedTokenOf_not_space _ _)).2 .tokenExpired
      wTokenExp_expired).2⟩

theorem createBulkLoop_some (execFails : Nat → Bool) (rid : Int) :
    ∀ (items : List OrderRow) (idx : Nat) (pending p : List OrderRow),
      createBulkLoop execFails rid idx pending items = some p →
      p = pending ++ items.map (insertRow rid) := by
  intro items
  induction items with
  | nil =>
    intro idx pending p h
    simp only [createBulkLoop, Option.some.injEq] at h
    simp [← h]
  | cons it rest ih =>
    intro idx pending p h
    rw [createBulkLoop] at h
    by_cases hf : execFails idx
    · rw [if_pos hf] at h
      simp at h
    · rw [if_neg hf] at h
      rw [ih (idx + 1) (pending ++ [insertRow rid it]) p h]
      simp

/-- C9: order-creation atomicity. Every `CreateOrders` call either
persists the whole validated batch (appending exactly one row per item
to the order table) or leaves the table unchanged: every validation
error, every injected insert fault (which triggers the rollback) and a
failed commit all return the table as it was. -/
theorem c9_atomicity (restaurantExists ingredientExists : Int → Bool)
    (execFails : Nat → Bool) (commitFails : Bool) (db : List OrderRow)
    (rid : Int) (items : List OrderItem) (now : Int) :
    (∀ e, (createOrders restaurantExists ingredientExists execFails commitFails db rid items now).1 =
        .error e →
      (createOrders restaurantExists ingredientExists execFails commitFails db rid items now).2 = db) ∧
    ((createOrders restaurantExists ingredientExists execFails commitFails db rid items now).1 =
        .ok () →
      ∃ rows, createOrdersLoop ingredientExists rid now 0 items = .ok rows ∧
        (createOrders restaurantExists ingredientExists execFails commitFails db rid items now).2 =
          db ++ rows.map (insertRow rid)) := by
  rw [createOrders]
  by_cases h1 : rid ≤ 0
  · rw [if_pos h1]
    exact ⟨fun e _ => rfl, fun h => by simp at h⟩
  · rw [if_neg h1]
    by_cases h2 : items = []
    · rw [if_pos h2]
      exact ⟨fun e _ => rfl, fun h => by simp at h⟩
    · rw [if_neg h2]
      by_cases h3 : restaurantExists rid
      · rw [if_pos h3]
        rcases hloop : createOrdersLoop ingredientExists rid now 0 items with e0 | rows
        · exact ⟨fun e _ => rfl, fun h => by simp at h⟩
        · simp only []
          rw [createBulk]
          by_cases h4 : rows = []
          · rw [if_pos h4]
            refine ⟨fun e he => by simp at he, fun _ => ⟨rows, rfl, ?_⟩⟩
            rw [h4]
            simp
          · rw [if_neg h4]
            rcases hbulk : createBulkLoop execFails rid 0 [] rows with _ | pending
            · exact ⟨fun e _ => rfl, fun h => by simp at h⟩
            · simp only []
              by_cases h5 : commitFails
              · rw [if_pos h5]
                exact ⟨fun e _ => rfl, fun h => by simp at h⟩
              · rw [if_neg h5]
                refine ⟨fun e he => by simp at he, fun _ => ⟨rows, rfl, ?_⟩⟩
                rw [createBulkLoop_some execFails rid rows 0 [] pending hbulk]
                simp
      · rw [if_neg h3]
        exact ⟨fun e _ => rfl, fun h => by simp at h⟩

/-- Witness for C9: a batch of three items whose second references the
nonexistent ingredient 8 persists zero rows, and a batch whose second
insert hits an injected storage fault also persists zero rows. -/
theorem c9_atomicity_witness :
    (createOrders (fun _ => true) (fun i => i == 7) (fun _ => false) false [] 1
        [⟨7, 1⟩, ⟨8, 1⟩, ⟨7, 2⟩] 5).2 = [] ∧
    (createOrders (fun _ => true) (fun _ => true) (fun idx => idx == 1) false [] 1
        [⟨7, 1⟩, ⟨7, 1⟩, ⟨7, 2⟩] 5).2 = [] :=
  ⟨(c9_atomicity (fun _ => true) (fun i => i == 7) (fun _ => false) false [] 1
      [⟨7, 1⟩, ⟨8, 1⟩, ⟨7, 2⟩] 5).1 .ingredientNotFound (by decide),
   (c9_atomicity (fun _ => true) (fun _ => true) (fun idx => idx == 1) false [] 1
      [⟨7, 1⟩, ⟨7, 1⟩, ⟨7, 2⟩] 5).1 .storeFailed (by decide)⟩

set_option maxRecDepth 1000000 in
/-- C3, failing input evaluated: the valid token issued with secret
`change-me` for user 1 / restaurant 1 at `iat = 1700000001`
(`exp = 1700000901`) ends in the base64url character `E` (0x45). The
token obtained by flipping bit 1 of that final byte — a single-bit flip,
`0x45 ^^^ 0x47 = 2`, yielding `G` — is a different string of the same
length, yet `Decode` ACCEPTS it: Go's non-strict base64 decoder ignores
the two trailing padding bits of the final signature character, so the
altered character decodes to the same 32 MAC bytes and signature
verification, claims parsing, expiry check and user lookup all succeed.
The tamper-detection property of the specification fails on this input. -/
theorem c3_tamper_bitflip_accepted :
    (signedTokenOf changeMeBytes (claimsJSON 1 1 1700000001 1700000901)).getLast? = some 69 ∧
    ((signedTokenOf changeMeBytes (claimsJSON 1 1 1700000001 1700000901)).dropLast ++ [71]).length =
      (signedTokenOf changeMeBytes (claimsJSON 1 1 1700000001 1700000901)).length ∧
    (69 : Nat) ^^^ 71 = 2 ∧
    (signedTokenOf changeMeBytes (claimsJSON 1 1 1700000001 1700000901)).dropLast ++ [71] ≠
      signedTokenOf changeMeBytes (claimsJSON 1 1 1700000001 1700000901) ∧
    decodeClaims changeMeBytes 1700000500
        ((signedTokenOf changeMeBytes (claimsJSON 1 1 1700000001 1700000901)).dropLast ++ [71]) =
      .ok ⟨1, [49], 1700000001, 1700000901⟩ ∧
    validateAccessToken (newUser [] 0) (fun i => if i = 1 then some ⟨1, 1⟩ else none)
        1700000500
        ((signedTokenOf changeMeBytes (claimsJSON 1 1 1700000001 1700000901)).dropLast ++ [71]) =
      .ok ⟨1, 1⟩ := by
  decide

/-- Counterexample to C4 as stated: two issued tokens that differ only
in the embedded tenant id (`restaurant_id` 5 versus 9) decode to the
very same claims value — the decoder's claims struct has no tenant
field and `json.Unmarshal` skips the `restaurant_id` member — so
decoding cannot return "the same tenant id that was issued": it
returns no tenant id at all. -/
theorem c4_tenant_not_decoded :
    decodeClaims changeMeBytes 5 (signedTokenOf changeMeBytes (claimsJSON 1 5 1 0)) =
      decodeClaims changeMeBytes 5 (signedTokenOf changeMeBytes (claimsJSON 1 9 1 0)) ∧
    decodeClaims changeMeBytes 5 (signedTokenOf changeMeBytes (claimsJSON 1 5 1 0)) =
      .ok ⟨1, [49], 1, 0⟩ := by
  have h5 : decodeClaims changeMeBytes 5 (signedTokenOf changeMeBytes (claimsJSON 1 5 1 0)) =
      .ok ⟨1, [49], 1, 0⟩ := by
    rw [claimsJSON, decodeClaims_issuer changeMeBytes 1 5 1 0 5 (intBytes 1)
      ⟨by decide, by decide⟩ ⟨by decide, by decide⟩ ⟨by decide, by decide⟩
      ⟨by decide, by decide⟩ (jsonSafe_intBytes 1), claimsStage_eval]
    decide
  have h9 : decodeClaims changeMeBytes 5 (signedTokenOf changeMeBytes (claimsJSON 1 9 1 0)) =
      .ok ⟨1, [49], 1, 0⟩ := by
    rw [claimsJSON, decodeClaims_issuer changeMeBytes 1 9 1 0 5 (intBytes 1)
      ⟨by decide, by decide⟩ ⟨by decide, by decide⟩ ⟨by decide, by decide⟩
      ⟨by decide, by decide⟩ (jsonSafe_intBytes 1), claimsStage_eval]
    decide
  exact ⟨h5.trans h9.symm, h5⟩
